import Mathlib

/-!
Verification development for the listings persistence / deduplication /
query engine of the `cphus` repository (`src/cphus/crud.py`,
class `ListingsManager`).

The embedding models:
  * dynamic cell values (string / int / bool / timestamp / null), since the
    store is a polars DataFrame with schema inferred from inserted dicts;
  * a DataFrame as an ordered column list plus a list of rows, where a row
    is an association list from column name to value (missing entries read
    as null — this renders polars' "diagonal_relaxed" concatenation);
  * polars expression evaluation with three-valued (Kleene) logic: a
    comparison against a null cell yields a null mask entry, `filter` keeps
    only rows whose mask entry is definitively true, and column references
    are schema-checked (a missing column is an error even on zero rows);
  * Python `datetime.now()` as an explicit natural-number argument `now`
    passed to each mutating operation;
  * `_save` as a state update recording the written snapshot and counting
    actual writes (a write happens only when a storage path is configured
    and the frame is non-empty, as in the source).

Fallible operations return `Except CrudError`; the error constructors
correspond to the distinct `raise` sites / polars failures of the source.
An error result returns no successor state, matching the source where
every `raise` happens before any mutation of `self.df`.
-/

/-- A dynamic cell value, as stored in the polars frame. -/
inductive Value where
  | null : Value
  | int : Int → Value
  | str : String → Value
  | bool : Bool → Value
  | time : Nat → Value
  deriving DecidableEq, Repr

/-- Python truthiness of a value (`if key: ...` in the source):
null/None is falsy, `0` is falsy, the empty string is falsy,
`False` is falsy, a datetime is always truthy. -/
def Value.truthy : Value → Bool
  | .null => false
  | .int n => n != 0
  | .str s => s != ""
  | .bool b => b
  | .time _ => true

/-- A record / row: ordered mapping from column name to value
(a Python dict in the source). -/
abbrev Record := List (String × Value)

/-- Cell access: `record.get(col)` resolving a missing column to null
(this also renders the null fill of diagonal concatenation). -/
def Record.getV (r : Record) (k : String) : Value :=
  (List.lookup k r).getD .null

/-- The keys of a record, in order. -/
def Record.keys (r : Record) : List String := r.map Prod.fst

/-- Python dict assignment `r[k] = v`: replace in place if the key exists,
append otherwise. -/
def Record.setKey : Record → String → Value → Record
  | [], k, v => [(k, v)]
  | (k', v') :: rest, k, v =>
      if k' = k then (k, v) :: rest else (k', v') :: Record.setKey rest k v

/-- A polars DataFrame: an ordered schema plus rows. -/
structure Frame where
  cols : List String
  rows : List Record
  deriving DecidableEq, Repr

/-- `pl.DataFrame()` — the empty frame with no columns. -/
def Frame.empty : Frame := ⟨[], []⟩

/-- Schema of `pl.DataFrame(list_of_dicts)`: union of the records' keys in
order of first appearance. -/
def recordsCols (rs : List Record) : List String :=
  rs.foldl (fun acc r => acc ++ r.keys.filter (fun c => !acc.contains c)) []

/-- `pl.DataFrame(list_of_dicts)`. -/
def Frame.ofRecords (rs : List Record) : Frame := ⟨recordsCols rs, rs⟩

/-- `pl.concat([a, b], how="diagonal_relaxed")`: schema union (missing
cells read as null through `Record.getV`). -/
def Frame.concatDiag (a b : Frame) : Frame :=
  ⟨a.cols ++ b.cols.filter (fun c => !a.cols.contains c), a.rows ++ b.rows⟩

/-- `df[col].to_list()`. -/
def Frame.colValues (f : Frame) (c : String) : List Value :=
  f.rows.map (fun r => r.getV c)

/-- `df.to_dicts()`: every row materialised over the full schema
(missing cells become explicit nulls, as polars does). -/
def Frame.toDicts (f : Frame) : List Record :=
  f.rows.map (fun r => f.cols.map (fun c => (c, r.getV c)))

/-- Errors surfaced by the manager: the two `ValueError` duplicate raises,
the two `ValueError` raises of `update`, and polars' own
ColumnNotFoundError / dtype errors. -/
inductive CrudError where
  | duplicateKey : Value → CrudError
  | duplicateBatch : Nat → List Value → CrudError
  | noRecords : CrudError
  | notFound : Value → CrudError
  | columnNotFound : String → CrudError
  | typeMismatch : CrudError
  deriving DecidableEq, Repr

/-- Comparison operators of the CQL filter language. -/
inductive CmpOp where
  | eq | ne | gt | gte | lt | lte
  deriving DecidableEq, Repr

/-- String-matching operators of the CQL filter language. -/
inductive StrOp where
  | contains | startswith | endswith
  deriving DecidableEq, Repr

/-- The fragment of polars expressions the source constructs. -/
inductive Expr where
  | litTrue : Expr
  | cmp : CmpOp → String → Value → Expr
  | isIn : String → List Value → Expr
  | strTest : StrOp → String → Value → Expr
  | isNullTest : String → Bool → Expr
  | notE : Expr → Expr
  | andE : Expr → Expr → Expr
  deriving DecidableEq, Repr

/-- Column names an expression refers to (polars resolves these against
the schema before any row is evaluated). -/
def Expr.colRefs : Expr → List String
  | .litTrue => []
  | .cmp _ c _ => [c]
  | .isIn c _ => [c]
  | .strTest _ c _ => [c]
  | .isNullTest c _ => [c]
  | .notE e => e.colRefs
  | .andE a b => a.colRefs ++ b.colRefs

/-- Equality mask `col == lit`: null on either side propagates null
(polars comparison semantics). -/
def eqMask (cell v : Value) : Option Bool :=
  if cell = .null ∨ v = .null then none else some (cell = v)

/-- Membership mask `col.is_in(values)`: a null cell propagates null
(polars default `nulls_equal=False`). -/
def isInEval (cell : Value) (vs : List Value) : Option Bool :=
  if cell = .null then none else some (vs.contains cell)

/-- Three-valued negation. -/
def negOpt : Option Bool → Option Bool
  | none => none
  | some b => some (!b)

/-- Kleene conjunction, as used by polars `&`. -/
def kleeneAnd : Option Bool → Option Bool → Option Bool
  | some false, _ => some false
  | _, some false => some false
  | some true, some true => some true
  | _, _ => none

/-- Ordering comparisons, defined on order-compatible dtypes; a dtype
mismatch is a polars error. Null on either side propagates null. -/
def cmpEval (op : CmpOp) (cell v : Value) : Except CrudError (Option Bool) :=
  if cell = .null ∨ v = .null then .ok none
  else
    match op with
    | .eq => .ok (eqMask cell v)
    | .ne => .ok (negOpt (eqMask cell v))
    | .gt =>
      match cell, v with
      | .int a, .int b => .ok (some (b < a))
      | .str a, .str b => .ok (some (b < a))
      | .time a, .time b => .ok (some (b < a))
      | _, _ => .error .typeMismatch
    | .gte =>
      match cell, v with
      | .int a, .int b => .ok (some (b ≤ a))
      | .str a, .str b => .ok (some (b ≤ a))
      | .time a, .time b => .ok (some (b ≤ a))
      | _, _ => .error .typeMismatch
    | .lt =>
      match cell, v with
      | .int a, .int b => .ok (some (a < b))
      | .str a, .str b => .ok (some (a < b))
      | .time a, .time b => .ok (some (a < b))
      | _, _ => .error .typeMismatch
    | .lte =>
      match cell, v with
      | .int a, .int b => .ok (some (a ≤ b))
      | .str a, .str b => .ok (some (a ≤ b))
      | .time a, .time b => .ok (some (a ≤ b))
      | _, _ => .error .typeMismatch

/-- Substring occurrence, for `col.str.contains(pat)` restricted to
metacharacter-free patterns: the source's `str.contains` compiles the
operand as a regex by default, which agrees with literal substring
search exactly when the pattern holds no regex metacharacter. The empty
pattern always occurs. Nothing proved below depends on this leaf. -/
def strContainsSub (s p : String) : Bool :=
  p.isEmpty || (s.splitOn p).length > 1

/-- Evaluate an expression on one row: `.ok (some b)` a definite boolean,
`.ok none` a null mask entry, `.error` a polars dtype failure. -/
def evalExpr (r : Record) : Expr → Except CrudError (Option Bool)
  | .litTrue => .ok (some true)
  | .cmp op c v => cmpEval op (r.getV c) v
  | .isIn c vs => .ok (isInEval (r.getV c) vs)
  | .strTest op c pat =>
      match r.getV c, pat with
      | .null, _ => .ok none
      | .str s, .str p =>
          match op with
          | .contains => .ok (some (strContainsSub s p))
          | .startswith => .ok (some (p.isPrefixOf s))
          | .endswith => .ok (some (s.endsWith p))
      | _, _ => .error .typeMismatch
  | .isNullTest c pos =>
      .ok (some (if pos then r.getV c = .null else ¬ r.getV c = .null))
  | .notE e => do
      let b ← evalExpr r e
      .ok (negOpt b)
  | .andE a b => do
      let x ← evalExpr r a
      let y ← evalExpr r b
      .ok (kleeneAnd x y)

/-- Keep the rows whose mask entry is definitively true (`df.filter`
discards false and null rows); an evaluation error aborts. -/
def filterRowsE (e : Expr) : List Record → Except CrudError (List Record)
  | [] => .ok []
  | r :: rs => do
      let b ← evalExpr r e
      let rest ← filterRowsE e rs
      .ok (if b = some true then r :: rest else rest)

/-- `df.filter(expr)`: schema-resolve the column references first (even on
zero rows polars raises ColumnNotFoundError for a missing column), then
keep the definitively-true rows. -/
def Frame.filterE (f : Frame) (e : Expr) : Except CrudError Frame :=
  match e.colRefs.find? (fun c => !f.cols.contains c) with
  | some c => .error (.columnNotFound c)
  | none => do
      let kept ← filterRowsE e f.rows
      .ok ⟨f.cols, kept⟩

/-- An operand of a CQL operator: a scalar or a list of values
(`in` / `nin` take lists in the source's call sites). -/
inductive FOperand where
  | val : Value → FOperand
  | list : List Value → FOperand
  deriving DecidableEq, Repr

/-- A filter criterion: either a bare scalar (shorthand for equality) or a
nested operator-to-operand mapping, `_build_filter`'s two input shapes. -/
inductive Criterion where
  | scalar : Value → Criterion
  | ops : List (String × FOperand) → Criterion
  deriving DecidableEq, Repr

/-- A CQL-style filter mapping, in insertion order. -/
abbrev Filters := List (String × Criterion)

/-- The one condition a `.val` operand contributes, or nothing for an
operand shape the branch would not accept. -/
def FOperand.valConds (od : FOperand) (f : Value → Expr) : List Expr :=
  match od with
  | .val v => [f v]
  | .list _ => []

/-- The one condition a `.list` operand contributes, or nothing. -/
def FOperand.listConds (od : FOperand) (f : List Value → Expr) : List Expr :=
  match od with
  | .list vs => [f vs]
  | .val _ => []

/-- The conditions one operator entry contributes inside
`_build_filter`'s inner if/elif chain. An operator name outside the
chain contributes nothing (the chain has no else branch). -/
def opConds (col operator : String) (od : FOperand) : List Expr :=
  if operator = "eq" then od.valConds (fun v => .cmp .eq col v)
  else if operator = "ne" then od.valConds (fun v => .cmp .ne col v)
  else if operator = "gt" then od.valConds (fun v => .cmp .gt col v)
  else if operator = "gte" then od.valConds (fun v => .cmp .gte col v)
  else if operator = "lt" then od.valConds (fun v => .cmp .lt col v)
  else if operator = "lte" then od.valConds (fun v => .cmp .lte col v)
  else if operator = "in" then od.listConds (fun vs => .isIn col vs)
  else if operator = "nin" then od.listConds (fun vs => .notE (.isIn col vs))
  else if operator = "contains" then
    od.valConds (fun v => .strTest .contains col v)
  else if operator = "startswith" then
    od.valConds (fun v => .strTest .startswith col v)
  else if operator = "endswith" then
    od.valConds (fun v => .strTest .endswith col v)
  else if operator = "is_null" then
    od.valConds (fun v => .isNullTest col v.truthy)
  else if operator = "is_not_null" then
    od.valConds (fun v => .isNullTest col (!v.truthy))
  else []

/-- The criterion for one column entry of the filter mapping: either a
scalar (simple equality check) or the operator loop. -/
def critConds (col : String) : Criterion → List Expr
  | .scalar v => [.cmp .eq col v]
  | .ops l => l.flatMap (fun p => opConds col p.1 p.2)

/-- The `conditions` list `_build_filter` accumulates: a column name
absent from the current schema is skipped (`continue`). -/
def filterConds (cols : List String) : Filters → List Expr
  | [] => []
  | (c, crit) :: rest =>
      if cols.contains c then critConds c crit ++ filterConds cols rest
      else filterConds cols rest

/-- `conditions[0] & conditions[1] & ...`, or a literal true when
no condition was produced. -/
def foldAnd : List Expr → Expr
  | [] => .litTrue
  | e :: es => es.foldl Expr.andE e

/-- `_build_filter`. -/
def buildFilter (cols : List String) (fs : Filters) : Expr :=
  foldAnd (filterConds cols fs)

/-- The CRUD manager state: the unique key column name, whether a storage
path is configured, the in-memory frame, the durable snapshot (if any
write ever happened), and the number of actual file writes. -/
structure ListingsManager where
  uniqueKey : String
  hasPath : Bool
  df : Frame
  disk : Option Frame
  writes : Nat
  deriving DecidableEq, Repr

/-- `_save`: write the whole frame if a storage path is configured and the
frame is non-empty, otherwise do nothing. -/
def ListingsManager.save (m : ListingsManager) : ListingsManager :=
  if m.hasPath ∧ m.df.rows ≠ [] then
    { m with disk := some m.df, writes := m.writes + 1 }
  else m

/-- Stamp `created_at` and `updated_at` onto a record: the in-place dict
assignments of `create` / `create_many`, whose effect the caller observes
on their own record object after the call. -/
def stampRecord (record : Record) (now : Nat) : Record :=
  (record.setKey "created_at" (.time now)).setKey "updated_at" (.time now)

/-- Stamp `updated_at` onto an update mapping: the in-place dict
assignment of `update` / `update_many` (overwriting any caller-supplied
value), visible to the caller after the call. -/
def stampUpdates (updates : Record) (now : Nat) : Record :=
  updates.setKey "updated_at" (.time now)

/-- The row-append shared by `create`'s success path. -/
def ListingsManager.createInsert (m : ListingsManager) (record : Record)
    (now : Nat) : Frame × ListingsManager :=
  let r := stampRecord record now
  let ndf := Frame.ofRecords [r]
  (ndf, ({ m with df := m.df.concatDiag ndf }).save)

/-- `create`: duplicate check (only when the record's key is truthy and
the store is non-empty — Python `if key and len(self.df) > 0 and ...`),
then stamp, append diagonally, save, and return the new single-row
frame. Indexing `self.df[self.unique_key]` on a non-empty store lacking
that column is a polars error. -/
def ListingsManager.create (m : ListingsManager) (record : Record)
    (now : Nat) : Except CrudError (Frame × ListingsManager) :=
  let key := record.getV m.uniqueKey
  if key.truthy ∧ m.df.rows ≠ [] then
    if m.df.cols.contains m.uniqueKey then
      if (m.df.colValues m.uniqueKey).contains key then
        .error (.duplicateKey key)
      else .ok (m.createInsert record now)
    else .error (.columnNotFound m.uniqueKey)
  else .ok (m.createInsert record now)

/-- Whether `_ensure_unique` classifies a record as a duplicate: its key
is truthy (Python `if key and ...`) and occurs among the store's current
key values. -/
def ListingsManager.isDupRecord (m : ListingsManager) (r : Record) : Bool :=
  (r.getV m.uniqueKey).truthy
    && (m.df.colValues m.uniqueKey).contains (r.getV m.uniqueKey)

/-- `_ensure_unique`: single pass splitting the input into new records
and duplicate keys (rendered as the equivalent pair of filters). The
early return covers the empty store and the empty input. -/
def ListingsManager.ensureUnique (m : ListingsManager)
    (records : List Record) :
    Except CrudError (List Record × List Value) :=
  if m.df.rows = [] ∨ records = [] then .ok (records, [])
  else if m.df.cols.contains m.uniqueKey then
    .ok (records.filter (fun r => !m.isDupRecord r),
         (records.filter (fun r => m.isDupRecord r)).map
           (fun r => r.getV m.uniqueKey))
  else .error (.columnNotFound m.uniqueKey)

/-- `create_many`: empty input is an immediate empty result; duplicates
with `skip_existing=False` raise carrying the count and the first five
offending keys; an empty new subset is an empty result; otherwise stamp
all accepted records with the one batch time, append, save. -/
def ListingsManager.create_many (m : ListingsManager)
    (records : List Record) (skipExisting : Bool) (now : Nat) :
    Except CrudError (Frame × ListingsManager) :=
  if records = [] then .ok (Frame.empty, m)
  else do
    let (newRecords, duplicateKeys) ← m.ensureUnique records
    if duplicateKeys ≠ [] ∧ !skipExisting then
      .error (.duplicateBatch duplicateKeys.length (duplicateKeys.take 5))
    else if newRecords = [] then .ok (Frame.empty, m)
    else
      let stamped := newRecords.map (fun r => stampRecord r now)
      let ndf := Frame.ofRecords stamped
      .ok (ndf, ({ m with df := m.df.concatDiag ndf }).save)

/-- The filter stage of `read`: applied only when the filters argument
is truthy (`if filters:` — `None` and the empty mapping are falsy). -/
def readFilterStage (m : ListingsManager) (filters : Option Filters) :
    Except CrudError Frame :=
  match filters with
  | some fs =>
      if fs ≠ [] then m.df.filterE (buildFilter m.df.cols fs) else pure m.df
  | none => pure m.df

/-- The offset stage of `read`: `slice` — skipped when the offset is
falsy (`None` or `0`). -/
def readOffsetStage (f : Frame) (offset : Option Nat) : Frame :=
  match offset with
  | some o => if o ≠ 0 then ⟨f.cols, f.rows.drop o⟩ else f
  | none => f

/-- The limit stage of `read`: `limit` — skipped when falsy. -/
def readLimitStage (f : Frame) (limit : Option Nat) : Frame :=
  match limit with
  | some n => if n ≠ 0 then ⟨f.cols, f.rows.take n⟩ else f
  | none => f

/-- The projection stage of `read`: select the requested columns that
exist; skipped when the requested list is falsy or no requested column
exists in the schema. -/
def readSelectStage (f : Frame) (columns : Option (List String)) : Frame :=
  match columns with
  | some cs =>
      if cs ≠ [] then
        let available := cs.filter (fun c => f.cols.contains c)
        if available ≠ [] then
          ⟨available,
           f.rows.map (fun r => available.map (fun c => (c, r.getV c)))⟩
        else f
      else f
  | none => f

/-- `read`: empty store returns the empty frame; else filter, then
offset, then limit, then projection, each stage as in the source. -/
def ListingsManager.read (m : ListingsManager)
    (filters : Option Filters) (columns : Option (List String))
    (limit offset : Option Nat) : Except CrudError Frame :=
  if m.df.rows = [] then .ok Frame.empty
  else do
    let afterFilter ← readFilterStage m filters
    pure (readSelectStage
      (readLimitStage (readOffsetStage afterFilter offset) limit) columns)

/-- One output cell of the `select` rebuild in `update` / `update_many`:
an updated column takes the new value where the mask is true, keeps the
old cell where it is false, and becomes null where the mask entry is
null; any other column is passed through. -/
def updateCell (updates : Record) (mask : Option Bool) (r : Record)
    (c : String) : Value :=
  match List.lookup c updates with
  | some v =>
      match mask with
      | some true => v
      | some false => r.getV c
      | none => .null
  | none => r.getV c

/-- The rebuilt schema of the `select` in `update` / `update_many`: the
updated columns first (in mapping order), then the unchanged columns. -/
def updatedCols (updates : Record) (cols : List String) : List String :=
  updates.keys ++ cols.filter (fun c => !updates.keys.contains c)

/-- `update`: empty store and zero matches raise; the caller's update
mapping is stamped in place with `updated_at = now`; every update column
must exist in the schema (`pl.col(column)` in the otherwise-branch);
the whole table is rebuilt column-conditionally and the matching rows of
the rebuilt table are returned. -/
def ListingsManager.update (m : ListingsManager) (keyValue : Value)
    (updates : Record) (now : Nat) :
    Except CrudError (Frame × ListingsManager) :=
  if m.df.rows = [] then .error .noRecords
  else do
    let mask := Expr.cmp .eq m.uniqueKey keyValue
    let matched ← m.df.filterE mask
    if matched.rows = [] then .error (.notFound keyValue)
    else
      let updates' := stampUpdates updates now
      match updates'.keys.find? (fun c => !m.df.cols.contains c) with
      | some c => .error (.columnNotFound c)
      | none =>
          let newCols := updatedCols updates' m.df.cols
          let newRows := m.df.rows.map (fun r =>
            newCols.map (fun c =>
              (c, updateCell updates' (eqMask (r.getV m.uniqueKey) keyValue)
                    r c)))
          let df' : Frame := ⟨newCols, newRows⟩
          let m' := ({ m with df := df' }).save
          let result ← df'.filterE mask
          .ok (result, m')

/-- Row-by-row effectful map (the evaluation polars performs when the
`select` rebuilding the table computes each row; an error aborts). -/
def mapRowsE (f : Record → Except CrudError Record) :
    List Record → Except CrudError (List Record)
  | [] => .ok []
  | r :: rs => do
      let r' ← f r
      let rest ← mapRowsE f rs
      .ok (r' :: rest)

/-- `update_many`: like `update` but selecting by the CQL filter, with no
empty-match error; note the source saves unconditionally after the
rebuild, even when nothing matched. -/
def ListingsManager.update_many (m : ListingsManager) (filters : Filters)
    (updates : Record) (now : Nat) :
    Except CrudError (Frame × ListingsManager) :=
  if m.df.rows = [] then .ok (Frame.empty, m)
  else
    let fexpr := buildFilter m.df.cols filters
    let updates' := stampUpdates updates now
    match updates'.keys.find? (fun c => !m.df.cols.contains c) with
    | some c => .error (.columnNotFound c)
    | none => do
        let newCols := updatedCols updates' m.df.cols
        let newRows ← mapRowsE (fun r => do
          let mk ← evalExpr r fexpr
          pure (newCols.map (fun c => (c, updateCell updates' mk r c))))
          m.df.rows
        let df' : Frame := ⟨newCols, newRows⟩
        let m' := ({ m with df := df' }).save
        let result ← df'.filterE fexpr
        .ok (result, m')

/-- Truthiness of an optional list argument (`if key_values:`,
`if filters:`): `None` and the empty list are falsy. -/
def optTruthy {α : Type} : Option (List α) → Bool
  | none => false
  | some l => !l.isEmpty

/-- `delete_many`: one selection mode per call — non-empty `key_values`
first, else a truthy filter mapping, else a no-op returning 0 with no
reassignment and no save. The kept rows are those whose negated mask is
definitively true; the frame is reassigned in the two active modes, and
a save happens only when the row count actually dropped. -/
def ListingsManager.delete_many (m : ListingsManager)
    (keyValues : Option (List Value)) (filters : Option Filters) :
    Except CrudError (Nat × ListingsManager) :=
  if m.df.rows = [] then .ok (0, m)
  else
    let initial := m.df.rows.length
    if optTruthy keyValues then do
      let kept ← m.df.filterE (.notE (.isIn m.uniqueKey (keyValues.getD [])))
      let deleted := initial - kept.rows.length
      let m' := { m with df := kept }
      .ok (deleted, if deleted > 0 then m'.save else m')
    else if optTruthy filters then do
      let kept ← m.df.filterE
        (.notE (buildFilter m.df.cols (filters.getD [])))
      let deleted := initial - kept.rows.length
      let m' := { m with df := kept }
      .ok (deleted, if deleted > 0 then m'.save else m')
    else .ok (0, m)

/-- `find_new_listings`: empty store means everything is new; otherwise
partition the batch frame by membership of its key column in the store's
key values. Indexing the store's key column and filtering the batch frame
both schema-resolve the key column. -/
def ListingsManager.find_new_listings (m : ListingsManager)
    (newListings : List Record) : Except CrudError (Frame × Frame) :=
  if m.df.rows = [] then .ok (Frame.ofRecords newListings, Frame.empty)
  else if m.df.cols.contains m.uniqueKey then
    let ndf := Frame.ofRecords newListings
    let existingKeys := m.df.colValues m.uniqueKey
    let newMask := Expr.notE (.isIn m.uniqueKey existingKeys)
    do
      let fresh ← ndf.filterE newMask
      let already ← ndf.filterE (.notE newMask)
      .ok (fresh, already)
  else .error (.columnNotFound m.uniqueKey)

/-- `add_new_listings`: diff then insert the new subset with duplicate
skipping; returns `(0, empty)` when nothing is new. -/
def ListingsManager.add_new_listings (m : ListingsManager)
    (newListings : List Record) (now : Nat) :
    Except CrudError (Nat × Frame × ListingsManager) := do
  let (ndf, _) ← m.find_new_listings newListings
  if ndf.rows = [] then .ok (0, Frame.empty, m)
  else do
    let (created, m') ← m.create_many ndf.toDicts true now
    .ok (created.rows.length, created, m')

/-! ### Basic lemmas about records and stamping -/

theorem lookup_setKey_self (r : Record) (k : String) (v : Value) :
    List.lookup k (Record.setKey r k v) = some v := by
  induction r with
  | nil => simp [Record.setKey, List.lookup]
  | cons p rest ih =>
    obtain ⟨k', v'⟩ := p
    by_cases h : k' = k
    · subst h; simp [Record.setKey, List.lookup]
    · simp only [Record.setKey, if_neg h, List.lookup]
      have : (k == k') = false := by
        simp [beq_iff_eq]; exact fun hh => h hh.symm
      simp [this, ih]

theorem lookup_setKey_ne (r : Record) (k k' : String) (v : Value)
    (h : k' ≠ k) :
    List.lookup k' (Record.setKey r k v) = List.lookup k' r := by
  have hbe : (k' == k) = false := by simp [beq_iff_eq, h]
  induction r with
  | nil => simp [Record.setKey, List.lookup, hbe]
  | cons p rest ih =>
    obtain ⟨k₀, v₀⟩ := p
    by_cases h0 : k₀ = k
    · subst h0
      simp only [Record.setKey, if_pos rfl, List.lookup]
      simp [hbe]
    · simp only [Record.setKey, if_neg h0, List.lookup]
      cases hb : (k' == k₀) <;> simp [ih]

theorem getV_setKey_self (r : Record) (k : String) (v : Value) :
    Record.getV (Record.setKey r k v) k = v := by
  simp [Record.getV, lookup_setKey_self]

theorem getV_setKey_ne (r : Record) (k k' : String) (v : Value)
    (h : k' ≠ k) :
    Record.getV (Record.setKey r k v) k' = Record.getV r k' := by
  simp [Record.getV, lookup_setKey_ne _ _ _ _ h]

theorem stampRecord_created (r : Record) (t : Nat) :
    Record.getV (stampRecord r t) "created_at" = .time t := by
  unfold stampRecord
  rw [getV_setKey_ne _ _ _ _ (by decide), getV_setKey_self]

theorem stampRecord_updated (r : Record) (t : Nat) :
    Record.getV (stampRecord r t) "updated_at" = .time t := by
  unfold stampRecord
  rw [getV_setKey_self]

theorem stampRecord_getV_ne (r : Record) (t : Nat) (k : String)
    (h1 : k ≠ "created_at") (h2 : k ≠ "updated_at") :
    Record.getV (stampRecord r t) k = Record.getV r k := by
  unfold stampRecord
  rw [getV_setKey_ne _ _ _ _ h2, getV_setKey_ne _ _ _ _ h1]

theorem stampUpdates_updated (u : Record) (t : Nat) :
    Record.getV (stampUpdates u t) "updated_at" = .time t := by
  unfold stampUpdates; rw [getV_setKey_self]

theorem stampUpdates_getV_ne (u : Record) (t : Nat) (k : String)
    (h : k ≠ "updated_at") :
    Record.getV (stampUpdates u t) k = Record.getV u k := by
  unfold stampUpdates; rw [getV_setKey_ne _ _ _ _ h]

theorem mem_of_lookup_eq_some (r : Record) (k : String) (v : Value)
    (h : List.lookup k r = some v) : k ∈ Record.keys r := by
  induction r with
  | nil => simp [List.lookup] at h
  | cons p rest ih =>
    obtain ⟨k₀, v₀⟩ := p
    simp only [List.lookup] at h
    cases hb : (k == k₀) with
    | true =>
        have : k = k₀ := by simpa [beq_iff_eq] using hb
        subst this
        exact List.mem_cons_self _ _
    | false =>
        rw [hb] at h
        exact List.mem_cons_of_mem _ (ih h)

theorem mem_keys_of_getV_ne_null (r : Record) (k : String)
    (h : Record.getV r k ≠ .null) : (Record.keys r).contains k := by
  unfold Record.getV at h
  cases hl : List.lookup k r with
  | none => rw [hl] at h; simp at h
  | some v =>
    exact List.elem_eq_true_of_mem (mem_of_lookup_eq_some r k v hl)

/-! ### Lemmas about expression evaluation and filtering -/

theorem evalExpr_isIn (r : Record) (c : String) (vs : List Value) :
    evalExpr r (.isIn c vs) = .ok (isInEval (Record.getV r c) vs) := rfl

theorem evalExpr_notIsIn (r : Record) (c : String) (vs : List Value) :
    evalExpr r (.notE (.isIn c vs))
      = .ok (negOpt (isInEval (Record.getV r c) vs)) := rfl

theorem evalExpr_cmpEq (r : Record) (c : String) (v : Value) :
    evalExpr r (.cmp .eq c v) = .ok (eqMask (Record.getV r c) v) := by
  show cmpEval .eq (Record.getV r c) v = _
  unfold cmpEval eqMask
  by_cases h : Record.getV r c = Value.null ∨ v = Value.null <;> simp [h]

theorem filterRowsE_eq_filter (e : Expr) (g : Record → Option Bool)
    (rows : List Record) (h : ∀ r ∈ rows, evalExpr r e = .ok (g r)) :
    filterRowsE e rows = .ok (rows.filter (fun r => (g r).getD false)) := by
  induction rows with
  | nil => rfl
  | cons r rs ih =>
    have hr := h r (List.mem_cons_self _ _)
    have ih' := ih (fun x hx => h x (List.mem_cons_of_mem _ hx))
    simp only [filterRowsE, hr, ih', List.filter_cons, bind, Except.bind]
    cases hg : g r with
    | none => simp
    | some b => cases b <;> simp

theorem kleeneAnd_eq_true_iff :
    ∀ x y : Option Bool,
      kleeneAnd x y = some true ↔ x = some true ∧ y = some true := by
  decide

theorem evalExpr_andE_true (r : Record) (a b : Expr) :
    evalExpr r (.andE a b) = .ok (some true)
      ↔ evalExpr r a = .ok (some true) ∧ evalExpr r b = .ok (some true) := by
  cases ha : evalExpr r a with
  | error err => simp [evalExpr, ha, bind, Except.bind]
  | ok x =>
    cases hb : evalExpr r b with
    | error err => simp [evalExpr, ha, hb, bind, Except.bind]
    | ok y => simp [evalExpr, ha, hb, bind, Except.bind, kleeneAnd_eq_true_iff]

theorem foldl_andE_true (r : Record) (es : List Expr) (acc : Expr) :
    evalExpr r (es.foldl Expr.andE acc) = .ok (some true)
      ↔ evalExpr r acc = .ok (some true)
        ∧ ∀ e ∈ es, evalExpr r e = .ok (some true) := by
  induction es generalizing acc with
  | nil => simp
  | cons e es ih =>
    rw [List.foldl_cons, ih, evalExpr_andE_true, List.forall_mem_cons]
    tauto

theorem foldAnd_true (r : Record) (es : List Expr) :
    evalExpr r (foldAnd es) = .ok (some true)
      ↔ ∀ e ∈ es, evalExpr r e = .ok (some true) := by
  cases es with
  | nil => simp [foldAnd, evalExpr]
  | cons e es =>
    simp only [foldAnd]
    rw [foldl_andE_true, List.forall_mem_cons]

theorem FOperand.valConds_refs {od : FOperand} {f : Value → Expr}
    {col : String} (hf : ∀ v, (f v).colRefs = [col]) :
    ∀ e ∈ od.valConds f, Expr.colRefs e = [col] := by
  intro e he
  cases od with
  | val v =>
      rw [FOperand.valConds, List.mem_singleton] at he
      subst he; exact hf v
  | list vs => exact absurd he (List.not_mem_nil e)

theorem FOperand.listConds_refs {od : FOperand} {f : List Value → Expr}
    {col : String} (hf : ∀ vs, (f vs).colRefs = [col]) :
    ∀ e ∈ od.listConds f, Expr.colRefs e = [col] := by
  intro e he
  cases od with
  | val v => exact absurd he (List.not_mem_nil e)
  | list vs =>
      rw [FOperand.listConds, List.mem_singleton] at he
      subst he; exact hf vs

theorem opConds_refs (col operator : String) (od : FOperand) :
    ∀ e ∈ opConds col operator od, Expr.colRefs e = [col] := by
  intro e he
  unfold opConds at he
  by_cases h1 : operator = "eq"
  · rw [if_pos h1] at he
    exact @FOperand.valConds_refs od (fun v => Expr.cmp CmpOp.eq col v) col (fun x => rfl) e he
  rw [if_neg h1] at he
  by_cases h2 : operator = "ne"
  · rw [if_pos h2] at he
    exact @FOperand.valConds_refs od (fun v => Expr.cmp CmpOp.ne col v) col (fun x => rfl) e he
  rw [if_neg h2] at he
  by_cases h3 : operator = "gt"
  · rw [if_pos h3] at he
    exact @FOperand.valConds_refs od (fun v => Expr.cmp CmpOp.gt col v) col (fun x => rfl) e he
  rw [if_neg h3] at he
  by_cases h4 : operator = "gte"
  · rw [if_pos h4] at he
    exact @FOperand.valConds_refs od (fun v => Expr.cmp CmpOp.gte col v) col (fun x => rfl) e he
  rw [if_neg h4] at he
  by_cases h5 : operator = "lt"
  · rw [if_pos h5] at he
    exact @FOperand.valConds_refs od (fun v => Expr.cmp CmpOp.lt col v) col (fun x => rfl) e he
  rw [if_neg h5] at he
  by_cases h6 : operator = "lte"
  · rw [if_pos h6] at he
    exact @FOperand.valConds_refs od (fun v => Expr.cmp CmpOp.lte col v) col (fun x => rfl) e he
  rw [if_neg h6] at he
  by_cases h7 : operator = "in"
  · rw [if_pos h7] at he
    exact @FOperand.listConds_refs od (fun vs => Expr.isIn col vs) col (fun x => rfl) e he
  rw [if_neg h7] at he
  by_cases h8 : operator = "nin"
  · rw [if_pos h8] at he
    exact @FOperand.listConds_refs od (fun vs => Expr.notE (Expr.isIn col vs)) col (fun x => rfl) e he
  rw [if_neg h8] at he
  by_cases h9 : operator = "contains"
  · rw [if_pos h9] at he
    exact @FOperand.valConds_refs od (fun v => Expr.strTest StrOp.contains col v) col (fun x => rfl) e he
  rw [if_neg h9] at he
  by_cases h10 : operator = "startswith"
  · rw [if_pos h10] at he
    exact @FOperand.valConds_refs od (fun v => Expr.strTest StrOp.startswith col v) col (fun x => rfl) e he
  rw [if_neg h10] at he
  by_cases h11 : operator = "endswith"
  · rw [if_pos h11] at he
    exact @FOperand.valConds_refs od (fun v => Expr.strTest StrOp.endswith col v) col (fun x => rfl) e he
  rw [if_neg h11] at he
  by_cases h12 : operator = "is_null"
  · rw [if_pos h12] at he
    exact @FOperand.valConds_refs od (fun v => Expr.isNullTest col v.truthy) col (fun x => rfl) e he
  rw [if_neg h12] at he
  by_cases h13 : operator = "is_not_null"
  · rw [if_pos h13] at he
    exact @FOperand.valConds_refs od (fun v => Expr.isNullTest col (!v.truthy)) col (fun x => rfl) e he
  rw [if_neg h13] at he
  exact absurd he (List.not_mem_nil e)

theorem critConds_refs (col : String) (crit : Criterion) :
    ∀ e ∈ critConds col crit, Expr.colRefs e = [col] := by
  intro e he
  cases crit with
  | scalar v =>
      simp [critConds] at he
      subst he; rfl
  | ops l =>
      simp only [critConds, List.mem_flatMap] at he
      obtain ⟨p, _, hp⟩ := he
      exact opConds_refs col p.1 p.2 e hp

theorem filterConds_refs (cols : List String) (fs : Filters) :
    ∀ e ∈ filterConds cols fs, ∀ c ∈ e.colRefs, cols.contains c := by
  induction fs with
  | nil => intro e he; simp [filterConds] at he
  | cons p rest ih =>
    obtain ⟨c₀, crit⟩ := p
    intro e he c hc
    simp only [filterConds] at he
    by_cases hmem : cols.contains c₀
    · rw [if_pos hmem] at he
      rcases List.mem_append.mp he with h1 | h2
      · have := critConds_refs c₀ crit e h1
        rw [this] at hc
        simp at hc
        subst hc; exact hmem
      · exact ih e h2 c hc
    · rw [if_neg hmem] at he
      exact ih e he c hc

theorem colRefs_foldl_andE (es : List Expr) (acc : Expr) :
    (es.foldl Expr.andE acc).colRefs
      = acc.colRefs ++ (es.map Expr.colRefs).flatten := by
  induction es generalizing acc with
  | nil => simp
  | cons e es ih =>
    rw [List.foldl_cons, ih]
    simp [Expr.colRefs, List.append_assoc]

theorem buildFilter_refs (cols : List String) (fs : Filters) :
    ∀ c ∈ (buildFilter cols fs).colRefs, cols.contains c := by
  intro c hc
  unfold buildFilter foldAnd at hc
  cases hfc : filterConds cols fs with
  | nil => rw [hfc] at hc; simp [Expr.colRefs] at hc
  | cons e es =>
    rw [hfc, colRefs_foldl_andE] at hc
    rcases List.mem_append.mp hc with h1 | h2
    · exact filterConds_refs cols fs e (by rw [hfc]; exact List.mem_cons_self _ _) c h1
    · rw [List.mem_flatten] at h2
      obtain ⟨l, hl, hcl⟩ := h2
      rw [List.mem_map] at hl
      obtain ⟨e', he', rfl⟩ := hl
      exact filterConds_refs cols fs e'
        (by rw [hfc]; exact List.mem_cons_of_mem _ he') c hcl

theorem filterE_of_refs (f : Frame) (e : Expr)
    (h : ∀ c ∈ e.colRefs, f.cols.contains c) :
    f.filterE e =
      (do
        let kept ← filterRowsE e f.rows
        pure (⟨f.cols, kept⟩ : Frame)) := by
  have hfind : e.colRefs.find? (fun c => !f.cols.contains c) = none := by
    rw [List.find?_eq_none]
    intro c hc
    simpa using h c hc
  unfold Frame.filterE
  rw [hfind]
  rfl

/-! ### Concrete fixtures -/

/-- An in-memory manager with the default `listing_url` unique key. -/
def mgr0 : ListingsManager := ⟨"listing_url", false, Frame.empty, none, 0⟩

/-- A manager with a configured storage path. -/
def mgrP : ListingsManager := ⟨"listing_url", true, Frame.empty, none, 0⟩

def recA : Record := [("listing_url", .str "a"), ("rent", .int 1000)]
def recB : Record := [("listing_url", .str "b"), ("rent", .int 2000)]

/-- A record whose key is the empty string: non-null, but Python-falsy. -/
def recE : Record := [("listing_url", .str "")]

/-! ### Further frame lemmas -/

theorem mem_concatDiag_cols {a b : Frame} {c : String} :
    c ∈ (a.concatDiag b).cols ↔ c ∈ a.cols ∨ c ∈ b.cols := by
  simp only [Frame.concatDiag, List.mem_append, List.mem_filter]
  constructor
  · rintro (h | ⟨h, _⟩)
    · exact Or.inl h
    · exact Or.inr h
  · rintro (h | h)
    · exact Or.inl h
    · by_cases ha : c ∈ a.cols
      · exact Or.inl ha
      · refine Or.inr ⟨h, ?_⟩
        simpa using ha

theorem filterE_error_of_missing (f : Frame) (e : Expr) (c : String)
    (h : e.colRefs = [c]) (hc : ¬ f.cols.contains c) :
    f.filterE e = .error (.columnNotFound c) := by
  unfold Frame.filterE
  rw [h]
  have hcf : f.cols.contains c = false := Bool.eq_false_iff.mpr hc
  have hfind : List.find? (fun x => !f.cols.contains x) [c] = some c := by
    have hb : (!f.cols.contains c) = true := by rw [hcf]; rfl
    simp only [List.find?_cons]
    rw [hb]
  rw [hfind]

/-! ### C8: AND semantics of the CQL filter language -/

/-- C8: in one filter mapping, (i) a column entry naming a column absent
from the schema contributes no condition, (ii) the empty mapping's filter
evaluates to a definite true on every row (matches every row), (iii) the
built filter is definitively true on a row iff every accumulated
condition — across column entries and across operators within one
column's nested mapping — is definitively true on that row (logical AND),
and (iv) the filter `rent gte 1000, lte 2000` over rows with rent values
900/1000/1500/2000/2500 keeps exactly the rows valued 1000, 1500, 2000. -/
theorem C8_filter_and_semantics :
    (∀ (cols : List String) (c : String) (crit : Criterion) (fs : Filters),
        ¬ cols.contains c →
        buildFilter cols ((c, crit) :: fs) = buildFilter cols fs)
    ∧ (∀ (cols : List String) (r : Record),
        evalExpr r (buildFilter cols []) = .ok (some true))
    ∧ (∀ (cols : List String) (fs : Filters) (r : Record),
        evalExpr r (buildFilter cols fs) = .ok (some true)
          ↔ ∀ e ∈ filterConds cols fs, evalExpr r e = .ok (some true))
    ∧ (filterRowsE
        (buildFilter ["rent"]
          [("rent", .ops [("gte", .val (.int 1000)),
                          ("lte", .val (.int 2000))])])
        [[("rent", .int 900)], [("rent", .int 1000)], [("rent", .int 1500)],
         [("rent", .int 2000)], [("rent", .int 2500)]]
        = .ok [[("rent", .int 1000)], [("rent", .int 1500)],
               [("rent", .int 2000)]]) := by
  refine ⟨?_, ?_, ?_, ?_⟩
  · intro cols c crit fs h
    unfold buildFilter
    rw [filterConds, if_neg h]
  · intro cols r
    rfl
  · intro cols fs r
    exact foldAnd_true r (filterConds cols fs)
  · rfl

/-- Witness for C8 at concrete inputs, discharging the absent-column
hypothesis on the schema `["rent"]` and the unknown column `"zzz"`. -/
theorem C8_filter_and_semantics_witness :
    buildFilter ["rent"]
        [("zzz", Criterion.scalar (.int 1)),
         ("rent", Criterion.scalar (.int 2))]
      = buildFilter ["rent"] [("rent", Criterion.scalar (.int 2))]
    ∧ evalExpr [] (buildFilter ["rent"] []) = .ok (some true)
    ∧ (evalExpr [("rent", Value.int 2)]
        (buildFilter ["rent"] [("rent", Criterion.scalar (.int 2))])
          = .ok (some true)
        ↔ ∀ e ∈ filterConds ["rent"] [("rent", Criterion.scalar (.int 2))],
            evalExpr [("rent", Value.int 2)] e = .ok (some true)) :=
  ⟨C8_filter_and_semantics.1 ["rent"] "zzz" (Criterion.scalar (.int 1))
      [("rent", Criterion.scalar (.int 2))] (by decide),
   C8_filter_and_semantics.2.1 ["rent"] [],
   C8_filter_and_semantics.2.2.1 ["rent"]
      [("rent", Criterion.scalar (.int 2))] [("rent", Value.int 2)]⟩

/-! ### C10: find_new_listings on a batch lacking the key column -/

/-- C10: on a non-empty store, `find_new_listings` with an empty batch, or
with a batch none of whose records carries the unique-key column, raises
(polars ColumnNotFoundError) instead of returning the two partitions: the
batch frame lacks the key column the partition mask refers to (and if the
store itself lacks the column, indexing it fails first). -/
theorem C10_find_new_missing_key_column_errors :
    ∀ (m : ListingsManager) (batch : List Record),
      m.df.rows ≠ [] →
      (batch = [] ∨ ¬ (recordsCols batch).contains m.uniqueKey) →
      m.find_new_listings batch = .error (.columnNotFound m.uniqueKey) := by
  intro m batch h0 hbatch
  unfold ListingsManager.find_new_listings
  rw [if_neg h0]
  by_cases hk : m.df.cols.contains m.uniqueKey
  · rw [if_pos hk]
    have hnc : ¬ (Frame.ofRecords batch).cols.contains m.uniqueKey := by
      rcases hbatch with rfl | hb
      · simp [Frame.ofRecords, recordsCols]
      · exact hb
    have herr := filterE_error_of_missing (Frame.ofRecords batch)
      (Expr.notE (.isIn m.uniqueKey (m.df.colValues m.uniqueKey)))
      m.uniqueKey rfl hnc
    simp only [herr]
    rfl
  · rw [if_neg hk]

/-- Witness for C10: a one-row store and the empty batch. -/
def wit10m : ListingsManager :=
  ⟨"listing_url", false,
   ⟨["listing_url"], [[("listing_url", Value.str "a")]]⟩, none, 0⟩

theorem C10_find_new_missing_key_witness :
    wit10m.find_new_listings [] = .error (.columnNotFound "listing_url") :=
  C10_find_new_missing_key_column_errors wit10m []
    (by decide) (Or.inl rfl)

/-! ### Lemmas about save / create -/

theorem save_df (m : ListingsManager) : m.save.df = m.df := by
  unfold ListingsManager.save; split <;> rfl

theorem save_uniqueKey (m : ListingsManager) :
    m.save.uniqueKey = m.uniqueKey := by
  unfold ListingsManager.save; split <;> rfl

theorem truthy_ne_null {v : Value} (h : v.truthy = true) : v ≠ .null := by
  intro heq; subst heq; simp [Value.truthy] at h

theorem recordsCols_singleton (r : Record) :
    recordsCols [r] = Record.keys r := by
  unfold recordsCols
  simp [List.filter_eq_self]

theorem createInsert_eq (m : ListingsManager) (r : Record) (t : Nat)
    (f : Frame) (m' : ListingsManager) (h : m.createInsert r t = (f, m')) :
    f = Frame.ofRecords [stampRecord r t]
    ∧ m'.df = m.df.concatDiag (Frame.ofRecords [stampRecord r t])
    ∧ m'.uniqueKey = m.uniqueKey := by
  have h1 : f = (m.createInsert r t).1 := by rw [h]
  have h2 : m' = (m.createInsert r t).2 := by rw [h]
  subst h1; subst h2
  refine ⟨rfl, ?_, ?_⟩
  · show (({ m with df := _ } : ListingsManager).save).df = _
    rw [save_df]
  · show (({ m with df := _ } : ListingsManager).save).uniqueKey = _
    rw [save_uniqueKey]

/-- Full characterisation of a successful `create`. -/
theorem create_ok (m : ListingsManager) (r : Record) (t : Nat) (f : Frame)
    (m' : ListingsManager) (h : m.create r t = .ok (f, m')) :
    f = Frame.ofRecords [stampRecord r t]
    ∧ m'.df = m.df.concatDiag (Frame.ofRecords [stampRecord r t])
    ∧ m'.uniqueKey = m.uniqueKey
    ∧ ((Record.getV r m.uniqueKey).truthy = true → m.df.rows ≠ [] →
        ¬ (m.df.colValues m.uniqueKey).contains (Record.getV r m.uniqueKey)) := by
  unfold ListingsManager.create at h
  by_cases hcond : (Record.getV r m.uniqueKey).truthy = true ∧ m.df.rows ≠ []
  · rw [if_pos hcond] at h
    by_cases hcc : m.df.cols.contains m.uniqueKey
    · rw [if_pos hcc] at h
      by_cases hdup :
          (m.df.colValues m.uniqueKey).contains (Record.getV r m.uniqueKey)
      · rw [if_pos hdup] at h; exact absurd h (by simp)
      · rw [if_neg hdup] at h
        obtain ⟨hf, hdf, hu⟩ := createInsert_eq m r t f m' (Except.ok.inj h)
        exact ⟨hf, hdf, hu, fun _ _ => hdup⟩
    · rw [if_neg hcc] at h; exact absurd h (by simp)
  · rw [if_neg hcond] at h
    obtain ⟨hf, hdf, hu⟩ := createInsert_eq m r t f m' (Except.ok.inj h)
    refine ⟨hf, hdf, hu, fun htr hrows => absurd ⟨htr, hrows⟩ hcond⟩

/-! ### C1: duplicate single-record create -/

/-- C1 counterexample: the empty string is a non-null key value, two
records with that same key are both accepted by `create` (the duplicate
check is guarded by Python truthiness, and `""` is falsy), and the store
ends with both rows instead of only the first. -/
theorem C1_counterexample :
    Value.str "" ≠ Value.null
    ∧ ((do
          let (_, m₁) ← mgr0.create recE 0
          let (_, m₂) ← m₁.create recE 1
          pure m₂.df.rows.length : Except CrudError Nat) = .ok 2) :=
  ⟨by decide, rfl⟩

/-- C1 amended: for records r1, r2 with equal *truthy* (non-null and
non-empty/nonzero) unique-key values, after `create(r1)` succeeds,
`create(r2)` fails with the duplicate-key error and the store retains
exactly r1's (timestamp-stamped) row for that key. No mutation occurs on
failure: the raise precedes any state change in the source, and an
erroring operation returns no successor state in this model. The
unique-key column is assumed distinct from the two reserved timestamp
columns. -/
theorem C1_create_duplicate_truthy (m : ListingsManager) (r1 r2 : Record)
    (t1 t2 : Nat) (f1 : Frame) (m1 : ListingsManager)
    (htr : (Record.getV r1 m.uniqueKey).truthy = true)
    (hk2 : Record.getV r2 m.uniqueKey = Record.getV r1 m.uniqueKey)
    (hc1 : m.uniqueKey ≠ "created_at") (hc2 : m.uniqueKey ≠ "updated_at")
    (h1 : m.create r1 t1 = .ok (f1, m1)) :
    m1.create r2 t2 = .error (.duplicateKey (Record.getV r1 m.uniqueKey))
    ∧ m1.df.rows.filter
        (fun row => Record.getV row m.uniqueKey == Record.getV r1 m.uniqueKey)
      = [stampRecord r1 t1] := by
  obtain ⟨hf, hdf, hu, hnodup⟩ := create_ok m r1 t1 f1 m1 h1
  have hst : Record.getV (stampRecord r1 t1) m.uniqueKey
      = Record.getV r1 m.uniqueKey := stampRecord_getV_ne r1 t1 _ hc1 hc2
  have hrows : m1.df.rows = m.df.rows ++ [stampRecord r1 t1] := by
    rw [hdf]; rfl
  have hkeymem : m.uniqueKey ∈ m1.df.cols := by
    rw [hdf]
    apply mem_concatDiag_cols.mpr
    right
    show m.uniqueKey ∈ recordsCols [stampRecord r1 t1]
    rw [recordsCols_singleton]
    have : Record.getV (stampRecord r1 t1) m.uniqueKey ≠ .null := by
      rw [hst]; exact truthy_ne_null htr
    have hck := mem_keys_of_getV_ne_null _ _ this
    simpa using hck
  have hvalmem : (m1.df.colValues m.uniqueKey).contains
      (Record.getV r1 m.uniqueKey) := by
    apply List.elem_eq_true_of_mem
    unfold Frame.colValues
    rw [hrows]
    refine List.mem_map.mpr ⟨stampRecord r1 t1, ?_, hst⟩
    exact List.mem_append_right _ (List.mem_singleton.mpr rfl)
  have holdnone : ∀ row ∈ m.df.rows,
      Record.getV row m.uniqueKey ≠ Record.getV r1 m.uniqueKey := by
    intro row hrow heq
    by_cases hrn : m.df.rows = []
    · rw [hrn] at hrow; exact absurd hrow (List.not_mem_nil row)
    · have := hnodup htr hrn
      apply this
      apply List.elem_eq_true_of_mem
      unfold Frame.colValues
      exact List.mem_map.mpr ⟨row, hrow, heq⟩
  constructor
  · unfold ListingsManager.create
    have hcond : (Record.getV r2 m1.uniqueKey).truthy = true
        ∧ m1.df.rows ≠ [] := by
      constructor
      · rw [hu, hk2]; exact htr
      · rw [hrows]; simp
    rw [if_pos hcond]
    have hcc : m1.df.cols.contains m1.uniqueKey := by
      rw [hu]
      exact List.elem_eq_true_of_mem hkeymem
    rw [if_pos hcc]
    have hdup : (m1.df.colValues m1.uniqueKey).contains
        (Record.getV r2 m1.uniqueKey) := by
      rw [hu, hk2]; exact hvalmem
    rw [if_pos hdup]
    rw [hu, hk2]
  · rw [hrows, List.filter_append]
    have hold : m.df.rows.filter
        (fun row => Record.getV row m.uniqueKey == Record.getV r1 m.uniqueKey)
        = [] := by
      rw [List.filter_eq_nil_iff]
      intro row hrow
      simpa [beq_iff_eq] using holdnone row hrow
    rw [hold]
    simp [hst]

/-- Witness state for C1: the store after `create(recA)` at time 0. -/
def w1f : Frame :=
  ⟨["listing_url", "rent", "created_at", "updated_at"],
   [[("listing_url", .str "a"), ("rent", .int 1000),
     ("created_at", .time 0), ("updated_at", .time 0)]]⟩

def w1m : ListingsManager := ⟨"listing_url", false, w1f, none, 0⟩

theorem C1_create_duplicate_truthy_witness :
    w1m.create [("listing_url", Value.str "a"), ("area", Value.int 50)] 1
      = .error (.duplicateKey (Value.str "a"))
    ∧ w1m.df.rows.filter
        (fun row => Record.getV row "listing_url" == Value.str "a")
      = [stampRecord recA 0] :=
  C1_create_duplicate_truthy mgr0 recA
    [("listing_url", Value.str "a"), ("area", Value.int 50)] 0 1 w1f w1m
    (by decide) (by decide) (by decide) (by decide) rfl

/-! ### Lemmas about ensure_unique / create_many -/

theorem ensureUnique_ok (m : ListingsManager) (records : List Record)
    (hcols : m.df.rows = [] ∨ m.df.cols.contains m.uniqueKey) :
    m.ensureUnique records = .ok
      (records.filter (fun r => !m.isDupRecord r),
       (records.filter (fun r => m.isDupRecord r)).map
         (fun r => Record.getV r m.uniqueKey)) := by
  unfold ListingsManager.ensureUnique
  by_cases h0 : m.df.rows = [] ∨ records = []
  · rw [if_pos h0]
    rcases h0 with h0 | h0
    · have hdup : ∀ r, m.isDupRecord r = false := by
        intro r
        unfold ListingsManager.isDupRecord
        unfold Frame.colValues
        rw [h0]
        simp
      simp [hdup]
    · subst h0; simp
  · rw [if_neg h0]
    push_neg at h0
    rcases hcols with hc | hc
    · exact absurd hc h0.1
    · rw [if_pos hc]

/-- Full characterisation of `create_many` with `skip_existing=True`. -/
theorem create_many_skip_ok (m : ListingsManager) (records : List Record)
    (t : Nat)
    (hcols : m.df.rows = [] ∨ m.df.cols.contains m.uniqueKey) :
    ∃ f m', m.create_many records true t = .ok (f, m')
      ∧ f.rows = (records.filter (fun r => !m.isDupRecord r)).map
          (fun r => stampRecord r t)
      ∧ m'.df.rows = m.df.rows
          ++ (records.filter (fun r => !m.isDupRecord r)).map
               (fun r => stampRecord r t)
      ∧ m'.uniqueKey = m.uniqueKey
      ∧ m'.df.cols = m.df.cols
          ++ (recordsCols ((records.filter (fun r => !m.isDupRecord r)).map
               (fun r => stampRecord r t))).filter
              (fun c => !m.df.cols.contains c) := by
  by_cases hrec : records = []
  · subst hrec
    refine ⟨Frame.empty, m, ?_, ?_, ?_, rfl, ?_⟩ <;>
      simp [ListingsManager.create_many, recordsCols, Frame.empty]
  · unfold ListingsManager.create_many
    rw [if_neg hrec, ensureUnique_ok m records hcols]
    simp only [bind, Except.bind]
    rw [if_neg (by simp :
      ¬((records.filter (fun r => m.isDupRecord r)).map
          (fun r => Record.getV r m.uniqueKey) ≠ [] ∧ (!true) = true))]
    by_cases hnew : records.filter (fun r => !m.isDupRecord r) = []
    · rw [if_pos hnew]
      refine ⟨Frame.empty, m, rfl, ?_, ?_, rfl, ?_⟩ <;>
        simp [hnew, recordsCols, Frame.empty]
    · rw [if_neg hnew]
      refine ⟨_, _, rfl, rfl, ?_, ?_, ?_⟩
      · show (ListingsManager.save _).df.rows = _
        rw [save_df]
        rfl
      · show (ListingsManager.save _).uniqueKey = _
        rw [save_uniqueKey]
      · show (ListingsManager.save _).df.cols = _
        rw [save_df]
        rfl

/-! ### C2: batch create duplicate policy -/

/-- C2 counterexample: the store already holds the (non-null, but falsy)
key `""`; a batch containing a record with that same key, with
`skip_existing=False`, is accepted and inserted instead of failing with
the duplicate-batch error: the duplicate partition in `_ensure_unique`
is guarded by Python truthiness of the key. -/
theorem C2_counterexample :
    Value.str "" ≠ Value.null
    ∧ ((do
          let (_, m₁) ← mgr0.create recE 0
          let (f, m₂) ← m₁.create_many [recE] false 1
          pure (f.rows.length, m₂.df.rows.length)
            : Except CrudError (Nat × Nat)) = .ok (1, 2)) :=
  ⟨by decide, rfl⟩

/-- C2 amended: with `skip_existing=False`, `create_many` fails with a
`DuplicateBatch` error — carrying the duplicate count and the first five
duplicate keys — and inserts nothing (an error returns no successor
state; the raise precedes any mutation in the source) whenever some
record's unique key is *truthy* and already present in the store; records
whose key is falsy (null, empty, zero) are never counted as duplicates.
With `skip_existing=True` it inserts exactly the non-duplicate subset, in
order, stamped with the batch time. The empty batch returns an empty
result with no error and no write (the manager is returned unchanged,
its write counter included). -/
theorem C2_create_many_truthy_duplicates (m : ListingsManager)
    (records : List Record) (t : Nat)
    (hcols : m.df.rows = [] ∨ m.df.cols.contains m.uniqueKey) :
    (records ≠ [] →
      records.filter (fun r => m.isDupRecord r) ≠ [] →
      m.create_many records false t
        = .error (.duplicateBatch
            ((records.filter (fun r => m.isDupRecord r)).map
              (fun r => Record.getV r m.uniqueKey)).length
            (((records.filter (fun r => m.isDupRecord r)).map
              (fun r => Record.getV r m.uniqueKey)).take 5)))
    ∧ (∃ f m', m.create_many records true t = .ok (f, m')
        ∧ f.rows = (records.filter (fun r => !m.isDupRecord r)).map
            (fun r => stampRecord r t)
        ∧ m'.df.rows = m.df.rows
            ++ (records.filter (fun r => !m.isDupRecord r)).map
                 (fun r => stampRecord r t))
    ∧ (∀ skip, m.create_many [] skip t = .ok (Frame.empty, m)) := by
  refine ⟨?_, ?_, ?_⟩
  · intro hne hdups
    unfold ListingsManager.create_many
    rw [if_neg hne, ensureUnique_ok m records hcols]
    simp only [bind, Except.bind]
    rw [if_pos]
    constructor
    · simpa using hdups
    · rfl
  · obtain ⟨f, m', h, hf, hm, _, _⟩ := create_many_skip_ok m records t hcols
    exact ⟨f, m', h, hf, hm⟩
  · intro skip
    simp [ListingsManager.create_many]

/-- Witness for C2 on the one-row store holding key `"a"`. -/
theorem C2_create_many_truthy_duplicates_witness :
    (w1m.create_many [[("listing_url", Value.str "a")]] false 5
      = .error (.duplicateBatch 1 [Value.str "a"]))
    ∧ w1m.create_many [] false 5 = .ok (Frame.empty, w1m) := by
  have h := C2_create_many_truthy_duplicates w1m
    [[("listing_url", Value.str "a")]] 5 (Or.inr (by decide))
  exact ⟨h.1 (by decide) (by decide), h.2.2 false⟩


/-! ### C4: read pipeline (filter, offset, limit, projection) -/

/-- Spec-side description of the offset-then-limit stage, from the spec's
words: skip the first `offset` matches, then cap at `limit` rows. -/
def specOffsetLimit (rows : List Record) (off lim : Option Nat) :
    List Record :=
  match lim with
  | none => rows.drop (off.getD 0)
  | some n => (rows.drop (off.getD 0)).take n

/-- Spec-side projection column list: the requested columns present in
the schema, unknown names dropped. -/
def specProjCols (cols : List String) : Option (List String) → List String
  | none => cols
  | some cs => cs.filter (fun c => cols.contains c)

/-- Spec-side projection of the result rows. -/
def specProject (cols : List String) (columnsReq : Option (List String))
    (rows : List Record) : List Record :=
  match columnsReq with
  | none => rows
  | some cs =>
      rows.map (fun r =>
        (cs.filter (fun c => cols.contains c)).map (fun c => (c, r.getV c)))

theorem readOffsetStage_eq (f : Frame) (off : Option Nat) :
    readOffsetStage f off = ⟨f.cols, f.rows.drop (off.getD 0)⟩ := by
  rcases off with _ | o
  · show f = ⟨f.cols, f.rows.drop 0⟩
    rw [List.drop_zero]
  · show (if o ≠ 0 then (⟨f.cols, f.rows.drop o⟩ : Frame) else f)
      = ⟨f.cols, f.rows.drop o⟩
    by_cases ho : o = 0
    · subst ho
      rw [if_neg (by simp), List.drop_zero]
    · rw [if_pos ho]

theorem offsetLimit_stages_eq (cols : List String) (rows : List Record)
    (off lim : Option Nat) (hl : lim ≠ some 0) :
    readLimitStage (readOffsetStage ⟨cols, rows⟩ off) lim
      = ⟨cols, specOffsetLimit rows off lim⟩ := by
  rw [readOffsetStage_eq]
  rcases lim with _ | n
  · rfl
  · have hn : n ≠ 0 := fun h => hl (by rw [h])
    show (if n ≠ 0 then _ else _) = _
    rw [if_pos hn]
    rfl

theorem readSelectStage_eq (f : Frame) (columnsReq : Option (List String))
    (hc : match columnsReq with
          | none => True
          | some cs => cs.filter (fun c => f.cols.contains c) ≠ []) :
    readSelectStage f columnsReq
      = ⟨specProjCols f.cols columnsReq,
         specProject f.cols columnsReq f.rows⟩ := by
  rcases columnsReq with _ | cs
  · rfl
  · have hav : cs.filter (fun c => f.cols.contains c) ≠ [] := hc
    have hcs : cs ≠ [] := by
      intro h; rw [h] at hav; simp at hav
    show (if cs ≠ [] then _ else f) = _
    rw [if_pos hcs]
    show (if cs.filter (fun c => f.cols.contains c) ≠ [] then _ else f) = _
    rw [if_pos hav]
    rfl

/-- C4 counterexample: with `limit = 0` on a two-row store, `read`
returns both rows instead of capping the result at zero rows — `0` is
Python-falsy, so `if limit:` skips the cap. -/
theorem C4_counterexample :
    ((do
        let (_, m₁) ← mgr0.create recA 0
        let (_, m₂) ← m₁.create recB 1
        (m₂.read none none (some 0) none).map (fun f => f.rows.length)
          : Except CrudError Nat) = .ok 2)
    ∧ ¬ (2 : Nat) ≤ 0 := ⟨rfl, by decide⟩

/-- C4 amended: on a non-empty store, `read` selects the rows matching
the filter, then skips the first `offset` matches, then caps at `limit`
rows *provided the limit is non-zero* (a limit of 0, like None, is
treated as "no limit" by Python truthiness), and finally projects to the
requested columns with unknown names silently dropped, *provided at
least one requested column is in the schema* (when none is, the
projection step is skipped and all columns are kept; an empty store
returns an empty zero-column frame). In particular the order is
offset-then-limit, never limit-then-offset. -/
theorem C4_read_offset_limit_project (m : ListingsManager) (fs : Filters)
    (columnsReq : Option (List String)) (lim off : Option Nat)
    (matched : List Record)
    (h0 : m.df.rows ≠ [])
    (hf : filterRowsE (buildFilter m.df.cols fs) m.df.rows = .ok matched)
    (hl : lim ≠ some 0)
    (hc : match columnsReq with
          | none => True
          | some cs => cs.filter (fun c => m.df.cols.contains c) ≠ []) :
    m.read (some fs) columnsReq lim off
      = .ok ⟨specProjCols m.df.cols columnsReq,
             specProject m.df.cols columnsReq
               (specOffsetLimit matched off lim)⟩ := by
  have hfe : readFilterStage m (some fs)
      = .ok (⟨m.df.cols, matched⟩ : Frame) := by
    show (if fs ≠ [] then m.df.filterE (buildFilter m.df.cols fs)
          else pure m.df) = _
    by_cases hfs : fs = []
    · subst hfs
      rw [if_neg (by simp)]
      have h1 := filterRowsE_eq_filter (buildFilter m.df.cols [])
        (fun _ => some true) m.df.rows (fun r _ => rfl)
      rw [h1] at hf
      have hm : matched = m.df.rows := by
        have := Except.ok.inj hf
        simpa using this.symm
      rw [hm]
      rfl
    · rw [if_pos hfs]
      rw [filterE_of_refs m.df _ (buildFilter_refs m.df.cols fs)]
      rw [hf]
      rfl
  unfold ListingsManager.read
  rw [if_neg h0]
  rw [hfe]
  simp only [bind, Except.bind]
  rw [offsetLimit_stages_eq m.df.cols matched off lim hl,
    readSelectStage_eq ⟨m.df.cols, specOffsetLimit matched off lim⟩
      columnsReq hc]
  rfl

/-- Witness for C4: one-row store, a matching rent filter, offset 0,
limit 1, and a projection list with one known and one unknown column. -/
theorem C4_read_offset_limit_project_witness :
    w1m.read
        (some [("rent", Criterion.ops [("gte", FOperand.val (.int 500))])])
        (some ["rent", "zzz"]) (some 1) (some 0)
      = .ok ⟨specProjCols w1m.df.cols (some ["rent", "zzz"]),
             specProject w1m.df.cols (some ["rent", "zzz"])
               (specOffsetLimit w1m.df.rows (some 0) (some 1))⟩ :=
  C4_read_offset_limit_project w1m
    [("rent", Criterion.ops [("gte", FOperand.val (.int 500))])]
    (some ["rent", "zzz"]) (some 1) (some 0)
    w1m.df.rows (by decide) rfl (by decide) (by decide)

/-- The manager `mgrP.create recA 0` produces: one row, a storage path,
one write so far. -/
def w6m : ListingsManager := ⟨"listing_url", true, w1f, some w1f, 1⟩


/-! ### C6: update_many with zero matches -/

theorem lookup_map_proj (cols : List String) (r : Record) (c : String) :
    List.lookup c (cols.map (fun c' => (c', Record.getV r c')))
      = if c ∈ cols then some (Record.getV r c) else none := by
  induction cols with
  | nil => simp [List.lookup]
  | cons c0 rest ih =>
    simp only [List.map_cons, List.lookup]
    by_cases hc : c = c0
    · subst hc; simp
    · have hbe : (c == c0) = false := by simp [beq_iff_eq, hc]
      simp only [hbe, ih]
      simp [List.mem_cons, hc]

theorem getV_projRow (cols : List String) (r : Record) (c : String) :
    Record.getV (cols.map (fun c' => (c', Record.getV r c'))) c
      = if c ∈ cols then Record.getV r c else .null := by
  rw [show Record.getV (cols.map (fun c' => (c', Record.getV r c'))) c
      = (List.lookup c (cols.map (fun c' => (c', Record.getV r c')))).getD
          Value.null from rfl]
  rw [lookup_map_proj]
  by_cases h : c ∈ cols
  · rw [if_pos h, if_pos h]
    rfl
  · rw [if_neg h, if_neg h]
    rfl

theorem updateCell_false (u : Record) (r : Record) (c : String) :
    updateCell u (some false) r c = Record.getV r c := by
  unfold updateCell
  cases List.lookup c u <;> rfl

theorem contains_updatedCols (u : Record) (cols : List String) (c : String)
    (h : cols.contains c) : (updatedCols u cols).contains c := by
  apply List.elem_eq_true_of_mem
  unfold updatedCols
  rw [List.mem_append]
  by_cases hu : c ∈ Record.keys u
  · exact Or.inl hu
  · refine Or.inr (List.mem_filter.mpr ⟨by simpa using h, ?_⟩)
    simpa using hu

theorem evalExpr_congr (r r' : Record) (e : Expr)
    (h : ∀ c ∈ e.colRefs, Record.getV r' c = Record.getV r c) :
    evalExpr r' e = evalExpr r e := by
  induction e with
  | litTrue => rfl
  | cmp op c v =>
      show cmpEval op (Record.getV r' c) v = cmpEval op (Record.getV r c) v
      rw [h c (by simp [Expr.colRefs])]
  | isIn c vs =>
      show Except.ok (isInEval (Record.getV r' c) vs) = _
      rw [h c (by simp [Expr.colRefs])]
      rfl
  | strTest op c pat =>
      show evalExpr r' (.strTest op c pat) = evalExpr r (.strTest op c pat)
      unfold evalExpr
      rw [h c (by simp [Expr.colRefs])]
  | isNullTest c pos =>
      show evalExpr r' (.isNullTest c pos) = evalExpr r (.isNullTest c pos)
      unfold evalExpr
      rw [h c (by simp [Expr.colRefs])]
  | notE e ih =>
      show evalExpr r' (.notE e) = evalExpr r (.notE e)
      unfold evalExpr
      rw [ih (fun c hc => h c hc)]
  | andE a b iha ihb =>
      show evalExpr r' (.andE a b) = evalExpr r (.andE a b)
      unfold evalExpr
      rw [iha (fun c hc => h c (by simp [Expr.colRefs, List.mem_append, hc])),
          ihb (fun c hc => h c (by simp [Expr.colRefs, List.mem_append, hc]))]

theorem mapRowsE_ok (f : Record → Except CrudError Record)
    (g : Record → Record) (rows : List Record)
    (h : ∀ r ∈ rows, f r = .ok (g r)) :
    mapRowsE f rows = .ok (rows.map g) := by
  induction rows with
  | nil => rfl
  | cons r rs ih =>
    have hr := h r (List.mem_cons_self _ _)
    have ih' := ih (fun x hx => h x (List.mem_cons_of_mem _ hx))
    simp [mapRowsE, hr, ih', bind, Except.bind]

/-- C6 counterexample: the reachable one-row store with a storage path
(`w6m`, obtained by `create(recA)` on `mgrP`, first conjunct) updated
with a filter matching zero rows: the result is empty, but a write to
the durable file happens anyway (the write counter steps from 1 to 2),
where the claim requires no write. -/
theorem C6_counterexample :
    (mgrP.create recA 0 = .ok (w1f, w6m))
    ∧ (filterRowsE
        (buildFilter w6m.df.cols
          [("rent", Criterion.ops [("eq", FOperand.val (.int 999))])])
        w6m.df.rows = .ok [])
    ∧ ((do
          let (f, m') ← w6m.update_many
            [("rent", Criterion.ops [("eq", FOperand.val (.int 999))])]
            [("rent", .int 5)] 7
          pure (f.rows.length, m'.writes) : Except CrudError (Nat × Nat))
        = .ok (0, 2))
    ∧ ¬ (2 : Nat) = 1 := ⟨rfl, rfl, rfl, by decide⟩

/-- C6 amended: on a non-empty store with a configured storage path, an
`update_many` whose filter mask is definitively false on every row —
zero matches with no null masks — (and whose update columns,
`updated_at` included, exist in the schema) returns an empty result and
leaves every row's cell values unchanged, but it still rebuilds the
table — moving the updated columns to the front of the schema — and
triggers one write to the durable file (the source calls `_save()`
unconditionally after the rebuild). The definitively-false proviso is
essential and strictly stronger than "matching zero rows": a null mask
on some row also matches zero rows, yet the `when/then/otherwise`
rebuild overwrites that row's updated columns with null, so its cell
values do not survive. -/
theorem C6_update_many_zero_matches (m : ListingsManager) (fs : Filters)
    (updates : Record) (t : Nat)
    (h0 : m.df.rows ≠ [])
    (hp : m.hasPath = true)
    (hz : ∀ r ∈ m.df.rows,
      evalExpr r (buildFilter m.df.cols fs) = .ok (some false))
    (hu : ∀ c ∈ Record.keys (stampUpdates updates t), m.df.cols.contains c) :
    ∃ F m', m.update_many fs updates t = .ok (F, m')
      ∧ F.rows = []
      ∧ m'.df.cols = updatedCols (stampUpdates updates t) m.df.cols
      ∧ m'.df.rows = m.df.rows.map (fun r =>
          (updatedCols (stampUpdates updates t) m.df.cols).map
            (fun c => (c, Record.getV r c)))
      ∧ (∀ r ∈ m.df.rows, ∀ c, m.df.cols.contains c →
          Record.getV
            ((updatedCols (stampUpdates updates t) m.df.cols).map
              (fun c' => (c', Record.getV r c'))) c
            = Record.getV r c)
      ∧ m'.writes = m.writes + 1 := by
  unfold ListingsManager.update_many
  rw [if_neg h0]
  have hfind : (Record.keys (stampUpdates updates t)).find?
      (fun c => !m.df.cols.contains c) = none := by
    rw [List.find?_eq_none]
    intro c hc
    simpa using hu c hc
  have hrows : mapRowsE (fun r => do
      let mk ← evalExpr r (buildFilter m.df.cols fs)
      pure ((updatedCols (stampUpdates updates t) m.df.cols).map
        (fun c => (c, updateCell (stampUpdates updates t) mk r c))))
      m.df.rows
      = .ok (m.df.rows.map (fun r =>
          (updatedCols (stampUpdates updates t) m.df.cols).map
            (fun c => (c, Record.getV r c)))) := by
    apply mapRowsE_ok
    intro r hr
    rw [hz r hr]
    simp only [bind, Except.bind, pure, Except.pure, updateCell_false]
  have hproj : ∀ r ∈ m.df.rows, ∀ c, m.df.cols.contains c →
      Record.getV
        ((updatedCols (stampUpdates updates t) m.df.cols).map
          (fun c' => (c', Record.getV r c'))) c
        = Record.getV r c := by
    intro r hr c hcont
    rw [getV_projRow]
    rw [if_pos]
    have := contains_updatedCols (stampUpdates updates t) m.df.cols c hcont
    simpa using this
  have hkept : filterRowsE (buildFilter m.df.cols fs)
      (m.df.rows.map (fun r =>
        (updatedCols (stampUpdates updates t) m.df.cols).map
          (fun c => (c, Record.getV r c)))) = .ok [] := by
    rw [filterRowsE_eq_filter _ (fun _ => some false)]
    · simp
    · intro r' hr'
      rw [List.mem_map] at hr'
      obtain ⟨r, hr, rfl⟩ := hr'
      rw [evalExpr_congr r _ _ (fun c hc => hproj r hr c
        (buildFilter_refs m.df.cols fs c hc))]
      exact hz r hr
  have hfe : (Frame.mk (updatedCols (stampUpdates updates t) m.df.cols)
      (m.df.rows.map (fun r =>
        (updatedCols (stampUpdates updates t) m.df.cols).map
          (fun c => (c, Record.getV r c))))).filterE
      (buildFilter m.df.cols fs) = .ok
        ⟨updatedCols (stampUpdates updates t) m.df.cols, []⟩ := by
    rw [filterE_of_refs]
    · rw [hkept]
      rfl
    · intro c hc
      exact contains_updatedCols _ _ _ (buildFilter_refs m.df.cols fs c hc)
  simp only [hfind]
  rw [hrows]
  simp only [bind, Except.bind]
  rw [hfe]
  refine ⟨_, _, rfl, rfl, ?_, ?_, hproj, ?_⟩
  · show (ListingsManager.save _).df.cols = _
    rw [save_df]
  · show (ListingsManager.save _).df.rows = _
    rw [save_df]
  · show (ListingsManager.save _).writes = _
    unfold ListingsManager.save
    rw [if_pos]
    constructor
    · exact hp
    · show ¬ m.df.rows.map _ = []
      simpa using h0

/-- Witness for C6 on the reachable one-row store `w6m`. -/
theorem C6_update_many_zero_matches_witness :
    ∃ F m', w6m.update_many
        [("rent", Criterion.ops [("eq", FOperand.val (.int 999))])]
        [("rent", .int 5)] 7 = .ok (F, m')
      ∧ F.rows = [] ∧ m'.writes = w6m.writes + 1 := by
  obtain ⟨F, m', h1, h2, _, _, _, h6⟩ :=
    C6_update_many_zero_matches w6m
      [("rent", Criterion.ops [("eq", FOperand.val (.int 999))])]
      [("rent", .int 5)] 7 (by decide) rfl
      (by
        intro r hr
        simp only [show w6m.df.rows
            = [[("listing_url", Value.str "a"), ("rent", Value.int 1000),
                ("created_at", Value.time 0), ("updated_at", Value.time 0)]]
          from rfl, List.mem_singleton] at hr
        subst hr
        rfl)
      (by decide)
  exact ⟨F, m', h1, h2, h6⟩

/-- The two-row store of the C7 scenario: row with key `"a"`, row with a
null key. -/
def w7m : ListingsManager :=
  ⟨"listing_url", false,
   ⟨["listing_url", "rent", "created_at", "updated_at"],
    [[("listing_url", .str "a"), ("rent", .int 1000),
      ("created_at", .time 0), ("updated_at", .time 0)],
     [("rent", .int 1), ("created_at", .time 1), ("updated_at", .time 1)]]⟩,
   none, 0⟩

/-! ### C7: delete_many selection modes -/

theorem evalExpr_notE_of (r : Record) (e : Expr) (x : Option Bool)
    (h : evalExpr r e = .ok x) :
    evalExpr r (.notE e) = .ok (negOpt x) := by
  unfold evalExpr
  rw [h]
  rfl

/-- C7 counterexample: the store holds a row with key `"a"` and a row
whose key is null (created without the key column);
`delete_many(key_values=["x"])` deletes one row — the null-key row is
discarded by the three-valued `~is_in` mask — although no row's key is a
member of `["x"]`, so deletion is not by exact key membership. -/
theorem C7_counterexample :
    ((do
        let (_, m₁) ← mgr0.create recA 0
        let (_, m₂) ← m₁.create [("rent", .int 1)] 1
        (m₂.delete_many (some [Value.str "x"]) none).map (fun p => p.1)
          : Except CrudError Nat) = .ok 1)
    ∧ ¬ (1 : Nat) = 0 := ⟨rfl, by decide⟩

/-- C7 amended: `delete_many` honors exactly one selection mode per call.
With non-empty `key_values`, it removes the rows whose key is in
`key_values` *and also every row whose key is null* (a null key yields a
null mask entry, which `filter` discards), ignoring `filters` entirely;
otherwise with a truthy filter mapping, it keeps exactly the rows whose
filter mask is *definitively false* and removes all the rest — the
definitely-matching rows *and also every row whose mask is null* (e.g.
a null cell in a filtered column; `filter(~expr)` discards the null
negated mask), the same three-valued effect as the first mode, with the
returned count the number of rows removed; with neither (both `None` or
empty), it returns 0 and leaves the manager — in-memory frame, durable
snapshot and write counter — entirely unchanged (no save is
triggered). -/
theorem C7_delete_many_modes :
    (∀ (m : ListingsManager) (l : List Value) (fs : Option Filters),
      l ≠ [] → m.df.rows ≠ [] → m.df.cols.contains m.uniqueKey →
      ∃ m', m.delete_many (some l) fs
          = .ok (m.df.rows.length
              - (m.df.rows.filter (fun r =>
                  !(Record.getV r m.uniqueKey == Value.null)
                    && !(l.contains (Record.getV r m.uniqueKey)))).length,
              m')
        ∧ m'.df = ⟨m.df.cols,
            m.df.rows.filter (fun r =>
              !(Record.getV r m.uniqueKey == Value.null)
                && !(l.contains (Record.getV r m.uniqueKey)))⟩)
    ∧ (∀ (m : ListingsManager) (fs : Filters) (g : Record → Option Bool),
      m.df.rows ≠ [] → fs ≠ [] →
      (∀ r ∈ m.df.rows,
        evalExpr r (buildFilter m.df.cols fs) = .ok (g r)) →
      ∃ m', m.delete_many none (some fs)
          = .ok (m.df.rows.length
              - (m.df.rows.filter (fun r => g r == some false)).length, m')
        ∧ m'.df = ⟨m.df.cols,
            m.df.rows.filter (fun r => g r == some false)⟩)
    ∧ (∀ m : ListingsManager,
        m.delete_many none none = .ok (0, m)
        ∧ m.delete_many (some []) none = .ok (0, m)
        ∧ m.delete_many none (some []) = .ok (0, m)
        ∧ m.delete_many (some []) (some []) = .ok (0, m)) := by
  refine ⟨?_, ?_, ?_⟩
  · intro m l fs hl h0 hk
    unfold ListingsManager.delete_many
    rw [if_neg h0]
    rw [if_pos (show optTruthy (some l) = true by
      simp [optTruthy, List.isEmpty_iff, hl])]
    have hfe : m.df.filterE (.notE (.isIn m.uniqueKey ((some l).getD [])))
        = .ok ⟨m.df.cols, m.df.rows.filter (fun r =>
            !(Record.getV r m.uniqueKey == Value.null)
              && !(l.contains (Record.getV r m.uniqueKey)))⟩ := by
      rw [filterE_of_refs _ _ (by
        intro c hc
        simp only [Expr.colRefs, List.mem_singleton] at hc
        subst hc
        exact hk)]
      simp only [Option.getD]
      rw [filterRowsE_eq_filter _
        (fun r => negOpt (isInEval (Record.getV r m.uniqueKey) l))
        m.df.rows (fun r _ => evalExpr_notIsIn r m.uniqueKey l)]
      have : ∀ r ∈ m.df.rows,
          ((negOpt (isInEval (Record.getV r m.uniqueKey) l)).getD false)
            = (!(Record.getV r m.uniqueKey == Value.null)
                && !(l.contains (Record.getV r m.uniqueKey))) := by
        intro r _
        unfold isInEval negOpt
        by_cases hn : Record.getV r m.uniqueKey = Value.null
        · simp [hn]
        · simp [hn]
      rw [List.filter_congr this]
      rfl
    rw [hfe]
    simp only [bind, Except.bind]
    by_cases hd : m.df.rows.length
        - (m.df.rows.filter (fun r =>
            !(Record.getV r m.uniqueKey == Value.null)
              && !(l.contains (Record.getV r m.uniqueKey)))).length > 0
    · rw [if_pos hd]
      refine ⟨_, rfl, ?_⟩
      rw [save_df]
    · rw [if_neg hd]
      exact ⟨_, rfl, rfl⟩
  · intro m fs g h0 hfs hev
    unfold ListingsManager.delete_many
    rw [if_neg h0]
    rw [if_neg (show ¬ optTruthy (none : Option (List Value)) = true by
      simp [optTruthy])]
    rw [if_pos (show optTruthy (some fs) = true by
      simp [optTruthy, List.isEmpty_iff, hfs])]
    have hfc : m.df.rows.filter (fun r => (negOpt (g r)).getD false)
        = m.df.rows.filter (fun r => g r == some false) :=
      List.filter_congr (fun r _ => by
        show (negOpt (g r)).getD false = (g r == some false)
        cases g r with
        | none => rfl
        | some b => cases b <;> rfl)
    have hfe : m.df.filterE
        (.notE (buildFilter m.df.cols ((some fs).getD [])))
        = .ok ⟨m.df.cols,
            m.df.rows.filter (fun r => g r == some false)⟩ := by
      rw [filterE_of_refs _ _ (by
        intro c hc
        exact buildFilter_refs m.df.cols fs c hc)]
      simp only [Option.getD]
      rw [filterRowsE_eq_filter _ (fun r => negOpt (g r)) m.df.rows
        (fun r hr => evalExpr_notE_of r _ _ (hev r hr))]
      simp only [hfc]
      rfl
    rw [hfe]
    simp only [bind, Except.bind]
    by_cases hd : m.df.rows.length
        - (m.df.rows.filter (fun r => g r == some false)).length > 0
    · rw [if_pos hd]
      refine ⟨_, rfl, ?_⟩
      rw [save_df]
    · rw [if_neg hd]
      exact ⟨_, rfl, rfl⟩
  · intro m
    by_cases h0 : m.df.rows = [] <;>
      refine ⟨?_, ?_, ?_, ?_⟩ <;>
        simp [ListingsManager.delete_many, h0, optTruthy]

/-- Witness for C7 on the two-row store (key `"a"` and a null key): the
key-values mode, the filters mode (where the null-key row's `eq` mask
is null, so it is removed alongside the matching row), and the
no-selection no-op. -/
theorem C7_delete_many_modes_witness :
    (∃ m', w7m.delete_many (some [Value.str "x"]) none
        = .ok (w7m.df.rows.length
            - (w7m.df.rows.filter (fun r =>
                !(Record.getV r "listing_url" == Value.null)
                  && !([Value.str "x"].contains
                        (Record.getV r "listing_url")))).length, m')
      ∧ m'.df = ⟨w7m.df.cols,
          w7m.df.rows.filter (fun r =>
            !(Record.getV r "listing_url" == Value.null)
              && !([Value.str "x"].contains
                    (Record.getV r "listing_url")))⟩)
    ∧ (∃ m', w7m.delete_many none
          (some [("listing_url",
            Criterion.ops [("eq", FOperand.val (Value.str "a"))])])
        = .ok (w7m.df.rows.length
            - (w7m.df.rows.filter (fun r =>
                eqMask (Record.getV r "listing_url") (Value.str "a")
                  == some false)).length, m')
      ∧ m'.df = ⟨w7m.df.cols,
          w7m.df.rows.filter (fun r =>
            eqMask (Record.getV r "listing_url") (Value.str "a")
              == some false)⟩)
    ∧ w7m.delete_many none none = .ok (0, w7m) :=
  ⟨C7_delete_many_modes.1 w7m [Value.str "x"] none (by decide) (by decide)
      (by decide),
   C7_delete_many_modes.2.1 w7m
      [("listing_url", Criterion.ops [("eq", FOperand.val (Value.str "a"))])]
      (fun r => eqMask (Record.getV r "listing_url") (Value.str "a"))
      (by decide) (by decide)
      (by intro r hr; fin_cases hr <;> rfl),
   (C7_delete_many_modes.2.2 w7m).1⟩

/-! ### C9: in-place stamping of the caller's dictionaries -/

/-- C9: `create`/`create_many` assign `record["created_at"]` and
`record["updated_at"]` on the caller's own dict object, and
`update`/`update_many` assign `updates["updated_at"]`, before building
the frame; the caller observes the mutation after the call. In this
state-passing model the post-call value of the caller's dict is
`stampRecord`/`stampUpdates`: both keys are inserted (or overwritten,
taking priority over any caller-supplied value), every other key is
untouched, and the successful `create` returns the frame built from that
very mutated record. -/
theorem C9_caller_dict_stamping :
    (∀ (r : Record) (t : Nat),
        Record.getV (stampRecord r t) "created_at" = .time t
        ∧ Record.getV (stampRecord r t) "updated_at" = .time t
        ∧ (Record.keys (stampRecord r t)).contains "created_at"
        ∧ (Record.keys (stampRecord r t)).contains "updated_at"
        ∧ ∀ k, k ≠ "created_at" → k ≠ "updated_at" →
            Record.getV (stampRecord r t) k = Record.getV r k)
    ∧ (∀ (u : Record) (t : Nat),
        Record.getV (stampUpdates u t) "updated_at" = .time t
        ∧ (Record.keys (stampUpdates u t)).contains "updated_at"
        ∧ ∀ k, k ≠ "updated_at" →
            Record.getV (stampUpdates u t) k = Record.getV u k)
    ∧ (∀ (m : ListingsManager) (r : Record) (t : Nat) (f : Frame)
        (m' : ListingsManager),
        m.create r t = .ok (f, m') →
        f = Frame.ofRecords [stampRecord r t]) := by
  refine ⟨?_, ?_, ?_⟩
  · intro r t
    refine ⟨stampRecord_created r t, stampRecord_updated r t, ?_, ?_,
      fun k h1 h2 => stampRecord_getV_ne r t k h1 h2⟩
    · exact mem_keys_of_getV_ne_null _ _
        (by rw [stampRecord_created]; intro h; cases h)
    · exact mem_keys_of_getV_ne_null _ _
        (by rw [stampRecord_updated]; intro h; cases h)
  · intro u t
    refine ⟨stampUpdates_updated u t, ?_,
      fun k h => stampUpdates_getV_ne u t k h⟩
    exact mem_keys_of_getV_ne_null _ _
      (by rw [stampUpdates_updated]; intro h; cases h)
  · intro m r t f m' h
    exact (create_ok m r t f m' h).1

/-- Witness for C9 at concrete records, update mappings, and a
successful concrete `create`. -/
theorem C9_caller_dict_stamping_witness :
    Record.getV (stampRecord recA 3) "created_at" = .time 3
    ∧ Record.getV (stampRecord recA 3) "listing_url"
        = Record.getV recA "listing_url"
    ∧ Record.getV (stampUpdates [("rent", Value.int 5)] 4) "updated_at"
        = .time 4
    ∧ w1f = Frame.ofRecords [stampRecord recA 0] :=
  ⟨(C9_caller_dict_stamping.1 recA 3).1,
   (C9_caller_dict_stamping.1 recA 3).2.2.2.2 "listing_url"
     (by decide) (by decide),
   (C9_caller_dict_stamping.2.1 [("rent", Value.int 5)] 4).1,
   C9_caller_dict_stamping.2.2 mgr0 recA 0 w1f w1m rfl⟩

/-! ### Lemmas for find_new_listings / add_new_listings -/

theorem mem_unionCols {a b : List String} {c : String} :
    c ∈ a ++ b.filter (fun x => !a.contains x) ↔ c ∈ a ∨ c ∈ b := by
  simp only [List.mem_append, List.mem_filter]
  constructor
  · rintro (h | ⟨h, _⟩)
    · exact Or.inl h
    · exact Or.inr h
  · rintro (h | h)
    · exact Or.inl h
    · by_cases ha : c ∈ a
      · exact Or.inl ha
      · refine Or.inr ⟨h, ?_⟩
        simpa using ha

theorem mem_recordsCols_aux (c : String) (rs : List Record)
    (acc : List String) :
    c ∈ rs.foldl (fun acc r =>
        acc ++ r.keys.filter (fun x => !acc.contains x)) acc
      ↔ c ∈ acc ∨ ∃ r ∈ rs, c ∈ Record.keys r := by
  induction rs generalizing acc with
  | nil => simp
  | cons r rs ih =>
    rw [List.foldl_cons, ih]
    rw [show (c ∈ acc ++ (Record.keys r).filter (fun x => !acc.contains x))
        ↔ (c ∈ acc ∨ c ∈ Record.keys r) from mem_unionCols]
    simp only [List.mem_cons]
    constructor
    · rintro ((h | h) | ⟨r', hr', hc⟩)
      · exact Or.inl h
      · exact Or.inr ⟨r, Or.inl rfl, h⟩
      · exact Or.inr ⟨r', Or.inr hr', hc⟩
    · rintro (h | ⟨r', (rfl | hr'), hc⟩)
      · exact Or.inl (Or.inl h)
      · exact Or.inl (Or.inr hc)
      · exact Or.inr ⟨r', hr', hc⟩

theorem mem_recordsCols {c : String} {rs : List Record} :
    c ∈ recordsCols rs ↔ ∃ r ∈ rs, c ∈ Record.keys r := by
  unfold recordsCols
  rw [mem_recordsCols_aux]
  simp

theorem keys_setKey_superset (r : Record) (k : String) (v : Value)
    (c : String) (h : c ∈ Record.keys r) :
    c ∈ Record.keys (Record.setKey r k v) := by
  induction r with
  | nil => simp [Record.keys] at h
  | cons p rest ih =>
    obtain ⟨k0, v0⟩ := p
    simp only [Record.setKey]
    by_cases h0 : k0 = k
    · subst h0
      rw [if_pos rfl]
      simp only [Record.keys, List.map_cons, List.mem_cons] at h ⊢
      exact h
    · rw [if_neg h0]
      simp only [Record.keys, List.map_cons, List.mem_cons] at h ⊢
      rcases h with h | h
      · exact Or.inl h
      · exact Or.inr (ih h)

theorem keys_stampRecord_superset (r : Record) (t : Nat) (c : String)
    (h : c ∈ Record.keys r) :
    c ∈ Record.keys (stampRecord r t) := by
  unfold stampRecord
  exact keys_setKey_superset _ _ _ _ (keys_setKey_superset _ _ _ _ h)

theorem keys_projRow (cols : List String) (r : Record) :
    Record.keys (cols.map (fun c => (c, Record.getV r c))) = cols := by
  unfold Record.keys
  rw [List.map_map]
  show List.map (fun c => c) cols = cols
  simp

theorem find_new_empty_store (m : ListingsManager) (batch : List Record)
    (h0 : m.df.rows = []) :
    m.find_new_listings batch = .ok (Frame.ofRecords batch, Frame.empty) := by
  unfold ListingsManager.find_new_listings
  rw [if_pos h0]

theorem find_new_nonempty (m : ListingsManager) (batch : List Record)
    (h0 : m.df.rows ≠ []) (hkc : m.df.cols.contains m.uniqueKey)
    (hbk : (recordsCols batch).contains m.uniqueKey) :
    m.find_new_listings batch = .ok
      (⟨recordsCols batch,
        batch.filter (fun r =>
          (negOpt (isInEval (Record.getV r m.uniqueKey)
            (m.df.colValues m.uniqueKey))).getD false)⟩,
       ⟨recordsCols batch,
        batch.filter (fun r =>
          (negOpt (negOpt (isInEval (Record.getV r m.uniqueKey)
            (m.df.colValues m.uniqueKey)))).getD false)⟩) := by
  unfold ListingsManager.find_new_listings
  rw [if_neg h0, if_pos hkc]
  have hrefs : ∀ c ∈ (Expr.notE (.isIn m.uniqueKey
      (m.df.colValues m.uniqueKey))).colRefs,
      (Frame.ofRecords batch).cols.contains c := by
    intro c hc
    simp only [Expr.colRefs, List.mem_singleton] at hc
    subst hc
    exact hbk
  have hf1 : (Frame.ofRecords batch).filterE
      (Expr.notE (.isIn m.uniqueKey (m.df.colValues m.uniqueKey)))
      = .ok ⟨recordsCols batch,
          batch.filter (fun r =>
            (negOpt (isInEval (Record.getV r m.uniqueKey)
              (m.df.colValues m.uniqueKey))).getD false)⟩ := by
    rw [filterE_of_refs _ _ hrefs]
    rw [filterRowsE_eq_filter _
      (fun r => negOpt (isInEval (Record.getV r m.uniqueKey)
        (m.df.colValues m.uniqueKey))) _
      (fun r _ => evalExpr_notIsIn r m.uniqueKey
        (m.df.colValues m.uniqueKey))]
    rfl
  have hf2 : (Frame.ofRecords batch).filterE
      (Expr.notE (Expr.notE (.isIn m.uniqueKey
        (m.df.colValues m.uniqueKey))))
      = .ok ⟨recordsCols batch,
          batch.filter (fun r =>
            (negOpt (negOpt (isInEval (Record.getV r m.uniqueKey)
              (m.df.colValues m.uniqueKey)))).getD false)⟩ := by
    rw [filterE_of_refs (Frame.ofRecords batch)
      (Expr.notE (Expr.notE (.isIn m.uniqueKey
        (m.df.colValues m.uniqueKey)))) hrefs]
    rw [filterRowsE_eq_filter _
      (fun r => negOpt (negOpt (isInEval (Record.getV r m.uniqueKey)
        (m.df.colValues m.uniqueKey)))) _
      (fun r _ => evalExpr_notE_of r _ _
        (evalExpr_notIsIn r m.uniqueKey (m.df.colValues m.uniqueKey)))]
    rfl
  simp only [hf1, hf2, bind, Except.bind]

theorem add_new_zero (m : ListingsManager) (batch : List Record) (t : Nat)
    (h0 : m.df.rows ≠ []) (hkc : m.df.cols.contains m.uniqueKey)
    (hbk : (recordsCols batch).contains m.uniqueKey)
    (hall : ∀ r ∈ batch,
      (negOpt (isInEval (Record.getV r m.uniqueKey)
        (m.df.colValues m.uniqueKey))).getD false = false) :
    m.add_new_listings batch t = .ok (0, Frame.empty, m) := by
  unfold ListingsManager.add_new_listings
  rw [find_new_nonempty m batch h0 hkc hbk]
  simp only [bind, Except.bind]
  have hnil : batch.filter (fun r =>
      (negOpt (isInEval (Record.getV r m.uniqueKey)
        (m.df.colValues m.uniqueKey))).getD false) = [] := by
    rw [List.filter_eq_nil_iff]
    intro r hr
    rw [hall r hr]
    simp
  simp only [hnil]
  rfl

theorem getV_stamp_proj (cols : List String) (r : Record) (t : Nat)
    (key : String) (hc1 : key ≠ "created_at") (hc2 : key ≠ "updated_at")
    (hmem : key ∈ cols) :
    Record.getV (stampRecord (cols.map (fun c => (c, Record.getV r c))) t) key
      = Record.getV r key := by
  rw [stampRecord_getV_ne _ _ _ hc1 hc2, getV_projRow, if_pos hmem]

theorem pred_true_iff (cell : Value) (ex : List Value) :
    (negOpt (isInEval cell ex)).getD false = true
      ↔ cell ≠ .null ∧ ¬ ex.contains cell := by
  unfold isInEval negOpt
  by_cases hn : cell = .null
  · simp [hn]
  · simp [hn]

theorem pred_false_iff (cell : Value) (ex : List Value) :
    (negOpt (isInEval cell ex)).getD false = false
      ↔ cell = .null ∨ ex.contains cell := by
  unfold isInEval negOpt
  by_cases hn : cell = .null
  · simp [hn]
  · simp [hn]

/-- C3: one `find_new_listings`-plus-`add_new_listings` pass inserts each
new row exactly once; repeating `add_new_listings` with the same batch
returns `(0, empty)` and leaves the store untouched. Hypotheses: the
store, when non-empty, carries the key column; the batch, when non-empty,
mentions the key column (otherwise the call raises, the case C10 covers);
and the key column is not one of the two reserved timestamp columns. -/
theorem C3_add_new_listings_idempotent (m : ListingsManager)
    (batch : List Record) (t t' : Nat) (n : Nat) (f : Frame)
    (m₁ : ListingsManager)
    (hk1 : m.df.rows = [] ∨ m.df.cols.contains m.uniqueKey)
    (hk2 : batch = [] ∨ (recordsCols batch).contains m.uniqueKey)
    (hc1 : m.uniqueKey ≠ "created_at") (hc2 : m.uniqueKey ≠ "updated_at")
    (h1 : m.add_new_listings batch t = .ok (n, f, m₁)) :
    m₁.add_new_listings batch t' = .ok (0, Frame.empty, m₁)
    ∧ m₁.df.rows.length = m.df.rows.length + n := by
  by_cases h0 : m.df.rows = []
  · -- empty store: everything in the batch is "new"
    unfold ListingsManager.add_new_listings at h1
    rw [find_new_empty_store m batch h0] at h1
    simp only [bind, Except.bind] at h1
    by_cases hb : batch = []
    · subst hb
      have hcnd : (Frame.ofRecords ([] : List Record)).rows = [] := rfl
      rw [if_pos hcnd] at h1
      simp only [Except.ok.injEq, Prod.mk.injEq] at h1
      obtain ⟨hn, _, hm⟩ := h1
      subst hn
      subst hm
      constructor
      · unfold ListingsManager.add_new_listings
        rw [find_new_empty_store m [] h0]
        simp only [bind, Except.bind]
        rw [if_pos (show (Frame.ofRecords ([] : List Record)).rows = []
          from rfl)]
      · simp
    · have hbk : (recordsCols batch).contains m.uniqueKey :=
        hk2.resolve_left hb
      have hbkm : m.uniqueKey ∈ recordsCols batch := by simpa using hbk
      rw [if_neg (by simpa [Frame.ofRecords] using hb)] at h1
      obtain ⟨cf, cm, hcall, hcf, hcmrows, hcmk, hcmcols⟩ :=
        create_many_skip_ok m (Frame.ofRecords batch).toDicts t (Or.inl h0)
      rw [hcall] at h1
      simp only [bind, Except.bind, Except.ok.injEq, Prod.mk.injEq] at h1
      obtain ⟨hn, _, hm⟩ := h1
      subst hm
      have hdupf : ∀ d, m.isDupRecord d = false := by
        intro d
        unfold ListingsManager.isDupRecord Frame.colValues
        rw [h0]
        simp
      have hfiltall : ((Frame.ofRecords batch).toDicts).filter
          (fun r => !m.isDupRecord r) = (Frame.ofRecords batch).toDicts := by
        apply List.filter_eq_self.mpr
        intro a _
        rw [hdupf a]
        rfl
      rw [hfiltall] at hcf hcmrows hcmcols
      have htd : (Frame.ofRecords batch).toDicts
          = batch.map (fun r =>
              (recordsCols batch).map (fun c => (c, Record.getV r c))) := rfl
      have hstmem : ∀ r ∈ batch,
          stampRecord ((recordsCols batch).map
            (fun c => (c, Record.getV r c))) t
          ∈ ((Frame.ofRecords batch).toDicts).map
              (fun d => stampRecord d t) := by
        intro r hr
        rw [htd, List.map_map]
        exact List.mem_map.mpr ⟨r, hr, rfl⟩
      have hkey_st : m.uniqueKey ∈ recordsCols
          (((Frame.ofRecords batch).toDicts).map
            (fun d => stampRecord d t)) := by
        obtain ⟨r0, hr0⟩ := List.exists_mem_of_ne_nil batch hb
        apply mem_recordsCols.mpr
        refine ⟨stampRecord ((recordsCols batch).map
          (fun c => (c, Record.getV r0 c))) t, hstmem r0 hr0, ?_⟩
        apply keys_stampRecord_superset
        rw [keys_projRow]
        exact hbkm
      have hkcm : cm.df.cols.contains m.uniqueKey := by
        apply List.elem_eq_true_of_mem
        rw [hcmcols]
        exact mem_unionCols.mpr (Or.inr hkey_st)
      constructor
      · apply add_new_zero cm batch t'
        · rw [hcmrows, h0]
          simp only [List.nil_append]
          intro hc
          rw [htd] at hc
          simp [hb] at hc
        · rw [hcmk]
          exact hkcm
        · rw [hcmk]
          exact hbk
        · intro r hr
          rw [hcmk, pred_false_iff]
          by_cases hnull : Record.getV r m.uniqueKey = .null
          · exact Or.inl hnull
          · right
            apply List.elem_eq_true_of_mem
            unfold Frame.colValues
            rw [hcmrows, h0, List.nil_append]
            refine List.mem_map.mpr
              ⟨stampRecord ((recordsCols batch).map
                (fun c => (c, Record.getV r c))) t, hstmem r hr, ?_⟩
            exact getV_stamp_proj _ _ _ _ hc1 hc2 hbkm
      · rw [hcmrows, h0, ← hn, hcf]
        simp
  · -- non-empty store
    have hkc := hk1.resolve_left h0
    by_cases hb : batch = []
    · subst hb
      unfold ListingsManager.add_new_listings
        ListingsManager.find_new_listings at h1
      rw [if_neg h0, if_pos hkc] at h1
      have herr := filterE_error_of_missing
        (Frame.ofRecords ([] : List Record))
        (Expr.notE (.isIn m.uniqueKey (m.df.colValues m.uniqueKey)))
        m.uniqueKey rfl
        (by simp [Frame.ofRecords, recordsCols])
      simp only [herr, bind, Except.bind] at h1
      exact absurd h1 (by simp)
    · have hbk : (recordsCols batch).contains m.uniqueKey :=
        hk2.resolve_left hb
      have hbkm : m.uniqueKey ∈ recordsCols batch := by simpa using hbk
      unfold ListingsManager.add_new_listings at h1
      rw [find_new_nonempty m batch h0 hkc hbk] at h1
      simp only [bind, Except.bind] at h1
      by_cases hfr : batch.filter (fun r =>
          (negOpt (isInEval (Record.getV r m.uniqueKey)
            (m.df.colValues m.uniqueKey))).getD false) = []
      · rw [if_pos hfr] at h1
        simp only [Except.ok.injEq, Prod.mk.injEq] at h1
        obtain ⟨hn, _, hm⟩ := h1
        subst hn
        subst hm
        constructor
        · apply add_new_zero m batch t' h0 hkc hbk
          intro r hr
          have := List.filter_eq_nil_iff.mp hfr r hr
          simpa using this
        · simp
      · rw [if_neg hfr] at h1
        obtain ⟨cf, cm, hcall, hcf, hcmrows, hcmk, hcmcols⟩ :=
          create_many_skip_ok m
            ((⟨recordsCols batch,
               batch.filter (fun r =>
                 (negOpt (isInEval (Record.getV r m.uniqueKey)
                   (m.df.colValues m.uniqueKey))).getD false)⟩ : Frame).toDicts)
            t (Or.inr hkc)
        rw [hcall] at h1
        simp only [bind, Except.bind, Except.ok.injEq, Prod.mk.injEq] at h1
        obtain ⟨hn, _, hm⟩ := h1
        subst hm
        have htd : ((⟨recordsCols batch,
            batch.filter (fun r =>
              (negOpt (isInEval (Record.getV r m.uniqueKey)
                (m.df.colValues m.uniqueKey))).getD false)⟩ : Frame).toDicts)
            = (batch.filter (fun r =>
                (negOpt (isInEval (Record.getV r m.uniqueKey)
                  (m.df.colValues m.uniqueKey))).getD false)).map
              (fun r =>
                (recordsCols batch).map (fun c => (c, Record.getV r c))) := rfl
        have hdupf : ∀ d ∈ ((⟨recordsCols batch,
            batch.filter (fun r =>
              (negOpt (isInEval (Record.getV r m.uniqueKey)
                (m.df.colValues m.uniqueKey))).getD false)⟩ : Frame).toDicts),
            m.isDupRecord d = false := by
          intro d hd
          rw [htd] at hd
          obtain ⟨r, hrf, rfl⟩ := List.mem_map.mp hd
          obtain ⟨hrb, hpr⟩ := List.mem_filter.mp hrf
          obtain ⟨hnull, hnc⟩ := (pred_true_iff _ _).mp hpr
          unfold ListingsManager.isDupRecord
          rw [getV_projRow, if_pos hbkm]
          rw [Bool.eq_false_iff.mpr hnc]
          simp
        have hfiltall : (((⟨recordsCols batch,
            batch.filter (fun r =>
              (negOpt (isInEval (Record.getV r m.uniqueKey)
                (m.df.colValues m.uniqueKey))).getD false)⟩ : Frame).toDicts)).filter
            (fun r => !m.isDupRecord r)
            = ((⟨recordsCols batch,
                batch.filter (fun r =>
                  (negOpt (isInEval (Record.getV r m.uniqueKey)
                    (m.df.colValues m.uniqueKey))).getD false)⟩ : Frame).toDicts) := by
          apply List.filter_eq_self.mpr
          intro a ha
          rw [hdupf a ha]
          rfl
        rw [hfiltall] at hcf hcmrows hcmcols
        have hstmem : ∀ r ∈ batch.filter (fun r =>
            (negOpt (isInEval (Record.getV r m.uniqueKey)
              (m.df.colValues m.uniqueKey))).getD false),
            stampRecord ((recordsCols batch).map
              (fun c => (c, Record.getV r c))) t
            ∈ (((⟨recordsCols batch,
                batch.filter (fun r =>
                  (negOpt (isInEval (Record.getV r m.uniqueKey)
                    (m.df.colValues m.uniqueKey))).getD false)⟩ : Frame).toDicts)).map
                (fun d => stampRecord d t) := by
          intro r hr
          rw [htd, List.map_map]
          exact List.mem_map.mpr ⟨r, hr, rfl⟩
        have hkcm : cm.df.cols.contains m.uniqueKey := by
          apply List.elem_eq_true_of_mem
          rw [hcmcols]
          exact mem_unionCols.mpr (Or.inl (by simpa using hkc))
        constructor
        · apply add_new_zero cm batch t'
          · rw [hcmrows]
            intro hcon
            exact h0 (List.append_eq_nil.mp hcon).1
          · rw [hcmk]
            exact hkcm
          · rw [hcmk]
            exact hbk
          · intro r hr
            rw [hcmk, pred_false_iff]
            by_cases hnull : Record.getV r m.uniqueKey = .null
            · exact Or.inl hnull
            · right
              apply List.elem_eq_true_of_mem
              unfold Frame.colValues
              rw [hcmrows, List.map_append]
              by_cases hex : (m.df.colValues m.uniqueKey).contains
                  (Record.getV r m.uniqueKey)
              · apply List.mem_append_left
                simpa [Frame.colValues] using hex
              · apply List.mem_append_right
                have hpr : (negOpt (isInEval (Record.getV r m.uniqueKey)
                    (m.df.colValues m.uniqueKey))).getD false = true :=
                  (pred_true_iff _ _).mpr ⟨hnull, by simpa using hex⟩
                refine List.mem_map.mpr
                  ⟨stampRecord ((recordsCols batch).map
                    (fun c => (c, Record.getV r c))) t,
                   hstmem r (List.mem_filter.mpr ⟨hr, hpr⟩), ?_⟩
                exact getV_stamp_proj _ _ _ _ hc1 hc2 hbkm
        · rw [hcmrows, ← hn, hcf]
          simp

/-- The two-row frame produced by adding `[recA, recB]` to the empty
store at time 0. -/
def w3f : Frame :=
  ⟨["listing_url", "rent", "created_at", "updated_at"],
   [[("listing_url", .str "a"), ("rent", .int 1000),
     ("created_at", .time 0), ("updated_at", .time 0)],
    [("listing_url", .str "b"), ("rent", .int 2000),
     ("created_at", .time 0), ("updated_at", .time 0)]]⟩

def w3m : ListingsManager := ⟨"listing_url", false, w3f, none, 0⟩

/-- Witness for C3: adding the batch `[recA, recB]` to the empty store,
then repeating the call. -/
theorem C3_add_new_listings_idempotent_witness :
    w3m.add_new_listings [recA, recB] 1 = .ok (0, Frame.empty, w3m)
    ∧ w3m.df.rows.length = mgr0.df.rows.length + 2 :=
  C3_add_new_listings_idempotent mgr0 [recA, recB] 0 1 2 w3f w3m
    (Or.inl rfl) (Or.inr (by decide)) (by decide) (by decide) rfl

/-! ### Lemmas for the timestamp discipline (C5) -/

theorem lookup_none_of_not_mem_keys (r : Record) (c : String)
    (h : c ∉ Record.keys r) : List.lookup c r = none := by
  cases hl : List.lookup c r with
  | none => rfl
  | some v => exact absurd (mem_of_lookup_eq_some r c v hl) h

theorem getV_map_fn (cols : List String) (fcell : String → Value)
    (c : String) :
    Record.getV (cols.map (fun c' => (c', fcell c'))) c
      = if c ∈ cols then fcell c else .null := by
  induction cols with
  | nil => simp [Record.getV, List.lookup]
  | cons c0 rest ih =>
    simp only [List.map_cons]
    rw [show Record.getV ((c0, fcell c0) :: rest.map (fun c' => (c', fcell c'))) c
        = (List.lookup c ((c0, fcell c0) :: rest.map (fun c' => (c', fcell c')))).getD
            Value.null from rfl]
    simp only [List.lookup]
    by_cases hc : c = c0
    · subst hc
      simp
    · have hbe : (c == c0) = false := by simp [beq_iff_eq, hc]
      simp only [hbe]
      rw [show (List.lookup c (rest.map (fun c' => (c', fcell c')))).getD Value.null
          = Record.getV (rest.map (fun c' => (c', fcell c'))) c from rfl]
      rw [ih]
      simp [List.mem_cons, hc]

theorem keys_setKey_cases (r : Record) (k : String) (v : Value) (c : String)
    (h : c ∈ Record.keys (Record.setKey r k v)) :
    c ∈ Record.keys r ∨ c = k := by
  induction r with
  | nil =>
    simp only [Record.setKey, Record.keys, List.map_cons, List.map_nil,
      List.mem_singleton] at h
    exact Or.inr h
  | cons p rest ih =>
    obtain ⟨k0, v0⟩ := p
    simp only [Record.setKey] at h
    by_cases h0 : k0 = k
    · subst h0
      rw [if_pos rfl] at h
      simp only [Record.keys, List.map_cons, List.mem_cons] at h ⊢
      rcases h with h | h
      · exact Or.inr h
      · exact Or.inl (Or.inr h)
    · rw [if_neg h0] at h
      simp only [Record.keys, List.map_cons, List.mem_cons] at h ⊢
      rcases h with h | h
      · exact Or.inl (Or.inl h)
      · rcases ih h with h' | h'
        · exact Or.inl (Or.inr h')
        · exact Or.inr h'

theorem filterRowsE_subset (e : Expr) (rows kept : List Record)
    (h : filterRowsE e rows = .ok kept) : ∀ r ∈ kept, r ∈ rows := by
  induction rows generalizing kept with
  | nil =>
    simp only [filterRowsE, Except.ok.injEq] at h
    subst h
    intro r hr
    exact absurd hr (List.not_mem_nil r)
  | cons r0 rs ih =>
    simp only [filterRowsE] at h
    rcases he : evalExpr r0 e with err | b
    · rw [he] at h
      simp [bind, Except.bind] at h
    · rw [he] at h
      rcases hrest : filterRowsE e rs with err | rest
      · rw [hrest] at h
        simp [bind, Except.bind] at h
      · rw [hrest] at h
        simp only [bind, Except.bind, Except.ok.injEq] at h
        subst h
        intro r hr
        by_cases hb : b = some true
        · rw [if_pos hb] at hr
          rcases List.mem_cons.mp hr with h' | h'
          · exact List.mem_cons.mpr (Or.inl h')
          · exact List.mem_cons.mpr (Or.inr (ih rest hrest r h'))
        · rw [if_neg hb] at hr
          exact List.mem_cons.mpr (Or.inr (ih rest hrest r hr))

theorem filterRowsE_ok_nonempty (e : Expr) (rows kept : List Record)
    (h : filterRowsE e rows = .ok kept) (hne : kept ≠ []) :
    ∃ r ∈ rows, evalExpr r e = .ok (some true) := by
  induction rows generalizing kept with
  | nil =>
    simp only [filterRowsE, Except.ok.injEq] at h
    subst h
    exact absurd rfl hne
  | cons r0 rs ih =>
    simp only [filterRowsE] at h
    rcases he : evalExpr r0 e with err | b
    · rw [he] at h
      simp [bind, Except.bind] at h
    · rw [he] at h
      rcases hrest : filterRowsE e rs with err | rest
      · rw [hrest] at h
        simp [bind, Except.bind] at h
      · rw [hrest] at h
        simp only [bind, Except.bind, Except.ok.injEq] at h
        by_cases hb : b = some true
        · subst hb
          exact ⟨r0, List.mem_cons_self _ _, he⟩
        · rw [if_neg hb] at h
          subst h
          obtain ⟨r, hr, hev⟩ := ih rest hrest hne
          exact ⟨r, List.mem_cons_of_mem _ hr, hev⟩

theorem filterE_ok_rows (f : Frame) (e : Expr) (g : Frame)
    (h : f.filterE e = .ok g) :
    filterRowsE e f.rows = .ok g.rows ∧ g.cols = f.cols := by
  unfold Frame.filterE at h
  rcases hfind : e.colRefs.find? (fun c => !f.cols.contains c) with _ | c
  · rw [hfind] at h
    rcases hfr : filterRowsE e f.rows with err | kept
    · rw [hfr] at h
      simp [bind, Except.bind] at h
    · rw [hfr] at h
      simp only [bind, Except.bind, pure, Except.pure, Except.ok.injEq] at h
      subst h
      exact ⟨rfl, rfl⟩
  · rw [hfind] at h
    simp at h

theorem create_many_ok_shape (m : ListingsManager) (records : List Record)
    (skip : Bool) (t : Nat) (f : Frame) (m' : ListingsManager)
    (h : m.create_many records skip t = .ok (f, m')) :
    ∃ newRecs : List Record,
      f.rows = newRecs.map (fun r => stampRecord r t)
      ∧ m'.df.rows = m.df.rows ++ newRecs.map (fun r => stampRecord r t) := by
  unfold ListingsManager.create_many at h
  by_cases hrec : records = []
  · rw [if_pos hrec] at h
    simp only [Except.ok.injEq, Prod.mk.injEq] at h
    obtain ⟨hf, hm⟩ := h
    subst hf
    subst hm
    exact ⟨[], by simp [Frame.empty], by simp⟩
  · rw [if_neg hrec] at h
    rcases heu : m.ensureUnique records with err | p
    · rw [heu] at h
      simp [bind, Except.bind] at h
    · obtain ⟨nr, dk⟩ := p
      rw [heu] at h
      simp only [bind, Except.bind] at h
      by_cases hdup : dk ≠ [] ∧ (!skip) = true
      · rw [if_pos hdup] at h
        simp at h
      · rw [if_neg hdup] at h
        by_cases hnr : nr = []
        · rw [if_pos hnr] at h
          simp only [Except.ok.injEq, Prod.mk.injEq] at h
          obtain ⟨hf, hm⟩ := h
          subst hf
          subst hm
          exact ⟨[], by simp [Frame.empty], by simp⟩
        · rw [if_neg hnr] at h
          simp only [Except.ok.injEq, Prod.mk.injEq] at h
          obtain ⟨hf, hm⟩ := h
          refine ⟨nr, ?_, ?_⟩
          · rw [← hf]
            rfl
          · rw [← hm]
            show (ListingsManager.save _).df.rows = _
            rw [save_df]
            rfl

theorem update_ok_shape (m : ListingsManager) (keyValue : Value)
    (updates : Record) (t' : Nat) (f : Frame) (m' : ListingsManager)
    (h : m.update keyValue updates t' = .ok (f, m')) :
    m'.df.cols = updatedCols (stampUpdates updates t') m.df.cols
    ∧ m'.df.rows = m.df.rows.map (fun r =>
        (updatedCols (stampUpdates updates t') m.df.cols).map
          (fun c => (c, updateCell (stampUpdates updates t')
            (eqMask (Record.getV r m.uniqueKey) keyValue) r c)))
    ∧ (∀ c ∈ Record.keys (stampUpdates updates t'), m.df.cols.contains c)
    ∧ keyValue ≠ Value.null := by
  unfold ListingsManager.update at h
  by_cases h0 : m.df.rows = []
  · rw [if_pos h0] at h
    simp at h
  · rw [if_neg h0] at h
    rcases hfe : m.df.filterE (Expr.cmp .eq m.uniqueKey keyValue)
      with err | mf
    · simp [hfe, bind, Except.bind] at h
    · simp only [hfe, bind, Except.bind] at h
      by_cases hm0 : mf.rows = []
      · rw [if_pos hm0] at h
        simp at h
      · rw [if_neg hm0] at h
        have hkvnn : keyValue ≠ Value.null := by
          obtain ⟨hfr, _⟩ := filterE_ok_rows _ _ _ hfe
          obtain ⟨r, _, hev⟩ := filterRowsE_ok_nonempty _ _ _ hfr hm0
          rw [evalExpr_cmpEq] at hev
          intro hkv
          rw [show eqMask (Record.getV r m.uniqueKey) keyValue = none from by
            unfold eqMask
            rw [if_pos (Or.inr hkv)]] at hev
          simp at hev
        rcases hfind : (Record.keys (stampUpdates updates t')).find?
            (fun c => !m.df.cols.contains c) with _ | c
        · simp only [hfind] at h
          rcases hre : (Frame.mk
              (updatedCols (stampUpdates updates t') m.df.cols)
              (m.df.rows.map (fun r =>
                (updatedCols (stampUpdates updates t') m.df.cols).map
                  (fun c => (c, updateCell (stampUpdates updates t')
                    (eqMask (Record.getV r m.uniqueKey) keyValue) r c))))).filterE
              (Expr.cmp .eq m.uniqueKey keyValue) with err | res
          · simp [hre, bind, Except.bind] at h
          · simp only [hre, bind, Except.bind, Except.ok.injEq,
              Prod.mk.injEq] at h
            obtain ⟨_, hm⟩ := h
            refine ⟨?_, ?_, ?_, hkvnn⟩
            · rw [← hm]
              show (ListingsManager.save _).df.cols = _
              rw [save_df]
            · rw [← hm]
              show (ListingsManager.save _).df.rows = _
              rw [save_df]
            · intro c hc
              have := List.find?_eq_none.mp hfind c hc
              simpa using this
        · simp only [hfind] at h
          simp at h

theorem update_many_ok_shape (m : ListingsManager) (fs : Filters)
    (updates : Record) (t' : Nat) (f : Frame) (m' : ListingsManager)
    (g : Record → Option Bool)
    (hmask : ∀ r ∈ m.df.rows,
      evalExpr r (buildFilter m.df.cols fs) = .ok (g r))
    (h0 : m.df.rows ≠ [])
    (h : m.update_many fs updates t' = .ok (f, m')) :
    m'.df.cols = updatedCols (stampUpdates updates t') m.df.cols
    ∧ m'.df.rows = m.df.rows.map (fun r =>
        (updatedCols (stampUpdates updates t') m.df.cols).map
          (fun c => (c, updateCell (stampUpdates updates t') (g r) r c)))
    ∧ (∀ c ∈ Record.keys (stampUpdates updates t'), m.df.cols.contains c) := by
  unfold ListingsManager.update_many at h
  rw [if_neg h0] at h
  rcases hfind : (Record.keys (stampUpdates updates t')).find?
      (fun c => !m.df.cols.contains c) with _ | c
  · simp only [hfind] at h
    have hmr : mapRowsE (fun r => do
        let mk ← evalExpr r (buildFilter m.df.cols fs)
        pure ((updatedCols (stampUpdates updates t') m.df.cols).map
          (fun c => (c, updateCell (stampUpdates updates t') mk r c))))
        m.df.rows
        = .ok (m.df.rows.map (fun r =>
            (updatedCols (stampUpdates updates t') m.df.cols).map
              (fun c => (c, updateCell (stampUpdates updates t') (g r) r c)))) := by
      apply mapRowsE_ok
      intro r hr
      rw [hmask r hr]
      rfl
    rw [hmr] at h
    simp only [bind, Except.bind] at h
    rcases hre : (Frame.mk
        (updatedCols (stampUpdates updates t') m.df.cols)
        (m.df.rows.map (fun r =>
          (updatedCols (stampUpdates updates t') m.df.cols).map
            (fun c => (c, updateCell (stampUpdates updates t') (g r) r c))))).filterE
        (buildFilter m.df.cols fs) with err | res
    · rw [hre] at h
      simp [bind, Except.bind] at h
    · rw [hre] at h
      simp only [bind, Except.bind, Except.ok.injEq, Prod.mk.injEq] at h
      obtain ⟨_, hm⟩ := h
      refine ⟨?_, ?_, ?_⟩
      · rw [← hm]
        show (ListingsManager.save _).df.cols = _
        rw [save_df]
      · rw [← hm]
        show (ListingsManager.save _).df.rows = _
        rw [save_df]
      · intro c hc
        have := List.find?_eq_none.mp hfind c hc
        simpa using this
  · simp only [hfind] at h
    simp at h

theorem delete_many_ok_subset (m : ListingsManager)
    (kv : Option (List Value)) (fs : Option Filters) (n : Nat)
    (m' : ListingsManager) (h : m.delete_many kv fs = .ok (n, m')) :
    ∀ r ∈ m'.df.rows, r ∈ m.df.rows := by
  unfold ListingsManager.delete_many at h
  by_cases h0 : m.df.rows = []
  · rw [if_pos h0] at h
    simp only [Except.ok.injEq, Prod.mk.injEq] at h
    obtain ⟨_, hm⟩ := h
    subst hm
    intro r hr
    exact hr
  · rw [if_neg h0] at h
    by_cases hkv : optTruthy kv = true
    · rw [if_pos hkv] at h
      rcases hfe : m.df.filterE
          (.notE (.isIn m.uniqueKey (kv.getD []))) with err | kept
      · simp [hfe, bind, Except.bind] at h
      · simp only [hfe, bind, Except.bind, Except.ok.injEq,
          Prod.mk.injEq] at h
        obtain ⟨_, hm⟩ := h
        have hrows' : m'.df.rows = kept.rows := by
          rw [← hm]
          by_cases hd : m.df.rows.length - kept.rows.length > 0
          · rw [if_pos hd]
            show (ListingsManager.save _).df.rows = _
            rw [save_df]
          · rw [if_neg hd]
        obtain ⟨hfr, _⟩ := filterE_ok_rows _ _ _ hfe
        intro r hr
        rw [hrows'] at hr
        exact filterRowsE_subset _ _ _ hfr r hr
    · rw [if_neg hkv] at h
      by_cases hf2 : optTruthy fs = true
      · rw [if_pos hf2] at h
        rcases hfe : m.df.filterE
            (.notE (buildFilter m.df.cols (fs.getD []))) with err | kept
        · simp [hfe, bind, Except.bind] at h
        · simp only [hfe, bind, Except.bind, Except.ok.injEq,
            Prod.mk.injEq] at h
          obtain ⟨_, hm⟩ := h
          have hrows' : m'.df.rows = kept.rows := by
            rw [← hm]
            by_cases hd : m.df.rows.length - kept.rows.length > 0
            · rw [if_pos hd]
              show (ListingsManager.save _).df.rows = _
              rw [save_df]
            · rw [if_neg hd]
          obtain ⟨hfr, _⟩ := filterE_ok_rows _ _ _ hfe
          intro r hr
          rw [hrows'] at hr
          exact filterRowsE_subset _ _ _ hfr r hr
      · rw [if_neg hf2] at h
        simp only [Except.ok.injEq, Prod.mk.injEq] at h
        obtain ⟨_, hm⟩ := h
        subst hm
        intro r hr
        exact hr

theorem created_not_mem_stampUpdates (updates : Record) (t' : Nat)
    (hnc : ¬ (Record.keys updates).contains "created_at") :
    "created_at" ∉ Record.keys (stampUpdates updates t') := by
  intro hm
  rcases keys_setKey_cases updates "updated_at" (.time t') "created_at" hm
    with h' | h'
  · exact hnc (List.elem_eq_true_of_mem h')
  · exact absurd h' (by decide)

theorem updateCell_created (updates : Record) (t' : Nat)
    (mask : Option Bool) (r : Record)
    (hnc : ¬ (Record.keys updates).contains "created_at") :
    updateCell (stampUpdates updates t') mask r "created_at"
      = Record.getV r "created_at" := by
  unfold updateCell
  rw [lookup_none_of_not_mem_keys _ _
    (created_not_mem_stampUpdates updates t' hnc)]

theorem updateCell_updated (updates : Record) (t' : Nat) (b : Bool)
    (r : Record) :
    updateCell (stampUpdates updates t') (some b) r "updated_at"
      = if b then .time t' else Record.getV r "updated_at" := by
  unfold updateCell stampUpdates
  rw [lookup_setKey_self]
  cases b <;> rfl

theorem created_mem_updatedCols (updates : Record) (t' : Nat)
    (cols : List String)
    (hnc : ¬ (Record.keys updates).contains "created_at")
    (hcc : "created_at" ∈ cols) :
    "created_at" ∈ updatedCols (stampUpdates updates t') cols := by
  unfold updatedCols
  apply List.mem_append_right
  apply List.mem_filter.mpr
  refine ⟨hcc, ?_⟩
  simpa using created_not_mem_stampUpdates updates t' hnc

theorem updated_mem_updatedCols (updates : Record) (t' : Nat)
    (cols : List String) :
    "updated_at" ∈ updatedCols (stampUpdates updates t') cols := by
  unfold updatedCols
  apply List.mem_append_left
  have := mem_keys_of_getV_ne_null (stampUpdates updates t') "updated_at"
    (by rw [stampUpdates_updated]; intro hh; cases hh)
  simpa using this

theorem updRow_cells (updates : Record) (t' : Nat) (cols : List String)
    (r : Record) (b : Bool)
    (hnc : ¬ (Record.keys updates).contains "created_at")
    (hcc : "created_at" ∈ cols) :
    Record.getV ((updatedCols (stampUpdates updates t') cols).map
      (fun c => (c, updateCell (stampUpdates updates t') (some b) r c)))
      "created_at" = Record.getV r "created_at"
    ∧ Record.getV ((updatedCols (stampUpdates updates t') cols).map
      (fun c => (c, updateCell (stampUpdates updates t') (some b) r c)))
      "updated_at" = (if b then .time t' else Record.getV r "updated_at") := by
  constructor
  · rw [getV_map_fn, if_pos (created_mem_updatedCols updates t' cols hnc hcc),
      updateCell_created _ _ _ _ hnc]
  · rw [getV_map_fn, if_pos (updated_mem_updatedCols updates t' cols),
      updateCell_updated]

theorem eqMask_some (cell kv : Value) (h1 : cell ≠ .null)
    (h2 : kv ≠ .null) :
    eqMask cell kv = some (decide (cell = kv)) := by
  unfold eqMask
  rw [if_neg (by tauto)]

/-- The timestamp invariant: every stored row carries `created_at` and
`updated_at` timestamps with `created_at ≤ updated_at ≤ t`, where `t`
bounds the last operation time. -/
def TimeInv (m : ListingsManager) (t : Nat) : Prop :=
  ∀ r ∈ m.df.rows, ∃ tc tu,
    Record.getV r "created_at" = .time tc
    ∧ Record.getV r "updated_at" = .time tu
    ∧ tc ≤ tu ∧ tu ≤ t

/-- C5 counterexample: `updated_at ≥ created_at` does NOT hold always.
A store of two rows — `recA` and a record created without a `rent`
field, so its `rent` cell is null — is updated with
`update_many({"rent": {"gte": 500}}, {"rent": 5})` at time 5. The
null-rent row's filter mask is null, and the `when/then/otherwise`
rebuild writes null into its updated columns, `updated_at` included:
the final timestamp pairs are `[(time 0, time 5), (time 0, null)]`,
and null is not a timestamp at all, so the second row violates
`created_at ≤ updated_at`. -/
theorem C5_counterexample :
    ((do
        let (_, m₁) ← mgr0.create recA 0
        let (_, m₂) ← m₁.create [("listing_url", .str "b")] 0
        let (_, m₃) ← m₂.update_many
          [("rent", Criterion.ops [("gte", FOperand.val (.int 500))])]
          [("rent", .int 5)] 5
        pure (m₃.df.rows.map (fun r =>
          (Record.getV r "created_at", Record.getV r "updated_at")))
        : Except CrudError (List (Value × Value)))
      = .ok [(.time 0, .time 5), (.time 0, .null)])
    ∧ (∀ tu : Nat, Value.null ≠ Value.time tu) :=
  ⟨rfl, fun _ h => Value.noConfusion h⟩

/-- C5 amended: the timestamp discipline, as preservation across the
mutating operations under a monotone clock, restricted to rows whose
match mask is a definite boolean. (i) `create` appends one stamped row
with `created_at = updated_at = now` and keeps every prior row intact,
preserving the invariant; (ii) `create_many` stamps every inserted row
with the one batch time and preserves the invariant; (iii) a successful
`update` — whose update mapping does not name `created_at` (the data
model reserves the timestamp columns to the store) and on a store whose
unique-key cells are all non-null, so that every row's equality mask is
definite — rewrites the table pointwise, leaving every row's
`created_at` unchanged and setting each matched row's `updated_at` to
the strictly later `now`, hence changing it; (iv) the same holds for
`update_many` when the filter mask is a definite boolean on every row;
(v) `delete_many` only removes rows, preserving the invariant. Together
these give: `created_at` is set exactly once at first insertion and
never changes, and on definite-mask rows `updated_at ≥ created_at`
holds and `updated_at` changes on every successful update. The
restriction is essential: on a row whose mask is null (a null unique
key under `update`, or a null filter mask under `update_many`, e.g. a
null cell in a filtered column) the `when/then/otherwise` rebuild
overwrites `updated_at` with null, as the counterexample shows, so the
unrestricted claim is false. -/
theorem C5_timestamp_discipline :
    (∀ (m : ListingsManager) (rec : Record) (t t' : Nat) (f : Frame)
        (m' : ListingsManager),
      TimeInv m t → t ≤ t' → m.create rec t' = .ok (f, m') →
      m'.df.rows = m.df.rows ++ [stampRecord rec t']
      ∧ Record.getV (stampRecord rec t') "created_at" = .time t'
      ∧ Record.getV (stampRecord rec t') "updated_at" = .time t'
      ∧ TimeInv m' t')
    ∧ (∀ (m : ListingsManager) (records : List Record) (skip : Bool)
        (t t' : Nat) (f : Frame) (m' : ListingsManager),
      TimeInv m t → t ≤ t' → m.create_many records skip t' = .ok (f, m') →
      (∀ r ∈ f.rows, Record.getV r "created_at" = .time t'
        ∧ Record.getV r "updated_at" = .time t')
      ∧ TimeInv m' t')
    ∧ (∀ (m : ListingsManager) (keyValue : Value) (updates : Record)
        (t t' : Nat) (f : Frame) (m' : ListingsManager),
      TimeInv m t → t < t' →
      ¬ (Record.keys updates).contains "created_at" →
      (∀ r ∈ m.df.rows, Record.getV r m.uniqueKey ≠ .null) →
      "created_at" ∈ m.df.cols →
      m.update keyValue updates t' = .ok (f, m') →
      ∃ rowFn : Record → Record,
        m'.df.rows = m.df.rows.map rowFn
        ∧ (∀ r ∈ m.df.rows,
            Record.getV (rowFn r) "created_at" = Record.getV r "created_at")
        ∧ (∀ r ∈ m.df.rows, Record.getV r m.uniqueKey = keyValue →
            Record.getV (rowFn r) "updated_at" = .time t'
            ∧ Record.getV (rowFn r) "updated_at"
                ≠ Record.getV r "updated_at")
        ∧ TimeInv m' t')
    ∧ (∀ (m : ListingsManager) (fs : Filters) (updates : Record)
        (t t' : Nat) (f : Frame) (m' : ListingsManager)
        (gb : Record → Bool),
      TimeInv m t → t < t' →
      ¬ (Record.keys updates).contains "created_at" →
      "created_at" ∈ m.df.cols →
      m.df.rows ≠ [] →
      (∀ r ∈ m.df.rows,
        evalExpr r (buildFilter m.df.cols fs) = .ok (some (gb r))) →
      m.update_many fs updates t' = .ok (f, m') →
      ∃ rowFn : Record → Record,
        m'.df.rows = m.df.rows.map rowFn
        ∧ (∀ r ∈ m.df.rows,
            Record.getV (rowFn r) "created_at" = Record.getV r "created_at")
        ∧ (∀ r ∈ m.df.rows, gb r = true →
            Record.getV (rowFn r) "updated_at" = .time t'
            ∧ Record.getV (rowFn r) "updated_at"
                ≠ Record.getV r "updated_at")
        ∧ TimeInv m' t')
    ∧ (∀ (m : ListingsManager) (kv : Option (List Value))
        (fs : Option Filters) (t : Nat) (n : Nat) (m' : ListingsManager),
      TimeInv m t → m.delete_many kv fs = .ok (n, m') → TimeInv m' t) := by
  refine ⟨?_, ?_, ?_, ?_, ?_⟩
  · -- create
    intro m rec t t' f m' hinv hle h
    obtain ⟨_, hdf, _, _⟩ := create_ok m rec t' f m' h
    have hrows : m'.df.rows = m.df.rows ++ [stampRecord rec t'] := by
      rw [hdf]; rfl
    refine ⟨hrows, stampRecord_created _ _, stampRecord_updated _ _, ?_⟩
    intro r hr
    rw [hrows] at hr
    rcases List.mem_append.mp hr with h' | h'
    · obtain ⟨tc, tu, h1, h2, h3, h4⟩ := hinv r h'
      exact ⟨tc, tu, h1, h2, h3, le_trans h4 hle⟩
    · rw [List.mem_singleton] at h'
      subst h'
      exact ⟨t', t', stampRecord_created _ _, stampRecord_updated _ _,
        le_refl _, le_refl _⟩
  · -- create_many
    intro m records skip t t' f m' hinv hle h
    obtain ⟨newRecs, hfr, hmr⟩ := create_many_ok_shape m records skip t' f m' h
    constructor
    · intro r hr
      rw [hfr] at hr
      obtain ⟨d, _, rfl⟩ := List.mem_map.mp hr
      exact ⟨stampRecord_created _ _, stampRecord_updated _ _⟩
    · intro r hr
      rw [hmr] at hr
      rcases List.mem_append.mp hr with h' | h'
      · obtain ⟨tc, tu, h1, h2, h3, h4⟩ := hinv r h'
        exact ⟨tc, tu, h1, h2, h3, le_trans h4 hle⟩
      · obtain ⟨d, _, rfl⟩ := List.mem_map.mp h'
        exact ⟨t', t', stampRecord_created _ _, stampRecord_updated _ _,
          le_refl _, le_refl _⟩
  · -- update
    intro m keyValue updates t t' f m' hinv hlt hnc hkeys hcc h
    obtain ⟨_, hrows, _, hkvnn⟩ := update_ok_shape m keyValue updates t' f m' h
    refine ⟨fun r => (updatedCols (stampUpdates updates t') m.df.cols).map
      (fun c => (c, updateCell (stampUpdates updates t')
        (eqMask (Record.getV r m.uniqueKey) keyValue) r c)),
      hrows, ?_, ?_, ?_⟩
    · intro r hr
      simp only [eqMask_some _ _ (hkeys r hr) hkvnn]
      exact (updRow_cells updates t' m.df.cols r _ hnc hcc).1
    · intro r hr heq
      have hmask : eqMask (Record.getV r m.uniqueKey) keyValue
          = some true := by
        rw [eqMask_some _ _ (hkeys r hr) hkvnn, heq]
        simp
      simp only [hmask]
      obtain ⟨tc, tu, h1, h2, h3, h4⟩ := hinv r hr
      have hup := (updRow_cells updates t' m.df.cols r true hnc hcc).2
      rw [if_pos rfl] at hup
      refine ⟨hup, ?_⟩
      rw [hup, h2]
      intro hq
      injection hq with hq'
      omega
    · intro r' hr'
      rw [hrows] at hr'
      obtain ⟨r, hr, rfl⟩ := List.mem_map.mp hr'
      obtain ⟨tc, tu, h1, h2, h3, h4⟩ := hinv r hr
      simp only [eqMask_some _ _ (hkeys r hr) hkvnn]
      cases hdec : decide (Record.getV r m.uniqueKey = keyValue) with
      | true =>
        obtain ⟨hc', hu'⟩ := updRow_cells updates t' m.df.cols r true hnc hcc
        rw [if_pos rfl] at hu'
        exact ⟨tc, t', by rw [hc', h1], by rw [hu'],
          le_trans h3 (le_trans h4 (le_of_lt hlt)), le_refl _⟩
      | false =>
        obtain ⟨hc', hu'⟩ := updRow_cells updates t' m.df.cols r false hnc hcc
        rw [if_neg (by simp)] at hu'
        exact ⟨tc, tu, by rw [hc', h1], by rw [hu', h2], h3,
          le_trans h4 (le_of_lt hlt)⟩
  · -- update_many
    intro m fs updates t t' f m' gb hinv hlt hnc hcc h0 hmask h
    obtain ⟨_, hrows, _⟩ := update_many_ok_shape m fs updates t' f m'
      (fun r => some (gb r)) hmask h0 h
    refine ⟨fun r => (updatedCols (stampUpdates updates t') m.df.cols).map
      (fun c => (c, updateCell (stampUpdates updates t')
        (some (gb r)) r c)),
      hrows, ?_, ?_, ?_⟩
    · intro r hr
      exact (updRow_cells updates t' m.df.cols r _ hnc hcc).1
    · intro r hr heq
      simp only [heq]
      obtain ⟨tc, tu, h1, h2, h3, h4⟩ := hinv r hr
      have hup := (updRow_cells updates t' m.df.cols r true hnc hcc).2
      rw [if_pos rfl] at hup
      refine ⟨hup, ?_⟩
      rw [hup, h2]
      intro hq
      injection hq with hq'
      omega
    · intro r' hr'
      rw [hrows] at hr'
      obtain ⟨r, hr, rfl⟩ := List.mem_map.mp hr'
      obtain ⟨tc, tu, h1, h2, h3, h4⟩ := hinv r hr
      cases hgb : gb r with
      | true =>
        obtain ⟨hc', hu'⟩ := updRow_cells updates t' m.df.cols r true hnc hcc
        rw [if_pos rfl] at hu'
        exact ⟨tc, t', by rw [hc', h1], by rw [hu'],
          le_trans h3 (le_trans h4 (le_of_lt hlt)), le_refl _⟩
      | false =>
        obtain ⟨hc', hu'⟩ := updRow_cells updates t' m.df.cols r false hnc hcc
        rw [if_neg (by simp)] at hu'
        exact ⟨tc, tu, by rw [hc', h1], by rw [hu', h2], h3,
          le_trans h4 (le_of_lt hlt)⟩
  · -- delete_many
    intro m kv fs t n m' hinv h
    intro r hr
    exact hinv r (delete_many_ok_subset m kv fs n m' h r hr)

/-- Witness for C5: instantiating the `create` conjunct at the empty store
and `recA` at time 0 — the new row is stamped with `created_at =
updated_at = time 0` and the timestamp invariant holds of the result. -/
theorem C5_timestamp_discipline_witness :
    w1m.df.rows = mgr0.df.rows ++ [stampRecord recA 0]
    ∧ Record.getV (stampRecord recA 0) "created_at" = .time 0
    ∧ Record.getV (stampRecord recA 0) "updated_at" = .time 0
    ∧ TimeInv w1m 0 :=
  C5_timestamp_discipline.1 mgr0 recA 0 0 w1f w1m
    (by intro r hr; simp [mgr0, Frame.empty] at hr) (by decide) rfl
